import Mathlib

set_option maxRecDepth 8000

/-! Verification of the Leo linter (`utils/linter/src/linter/mod.rs`).

The first half embeds the text normalizer `normalize_code` as a state
machine over `List Char`; the second half embeds the `lint` orchestration
as an interpreter over an abstract collaborator environment, recording the
externally visible events (directory operations, compiles, file reads and
writes) together with the outcome (ok, structured error, or panic). -/

/-- State carried across the scan of `normalize_code`: the accumulated
output `result`, the current `indent_level`, and the `inside_brace` and
`inside_comment` flags. -/
structure NormState where
  result : List Char
  indent_level : Nat
  inside_brace : Bool
  inside_comment : Bool
  deriving Repr, DecidableEq

/-- `add_indentation`: pushes the 4-space string `indent_level` times. -/
def addIndentation (result : List Char) (indent_level : Nat) : List Char :=
  result ++ List.replicate (4 * indent_level) ' '

/-- One transition of the `match` in `normalize_code` for a character that
is not the first `/` of a `//` pair (the peeked two-slash case is handled
in `normalizeLoop`).  Mirrors the source arm by arm, including the dead
`inside_comment` newline check of the default arm. -/
def normStep1 (st : NormState) (c : Char) : NormState :=
  if c = '{' then
    { st with
      result := addIndentation (st.result ++ ['{', '\n']) (st.indent_level + 1),
      indent_level := st.indent_level + 1,
      inside_brace := true }
  else if c = '}' then
    if st.inside_brace then
      { st with
        result := addIndentation
          (addIndentation (st.result ++ ['\n']) (st.indent_level - 1) ++ ['}', '\n'])
          (st.indent_level - 1),
        indent_level := st.indent_level - 1,
        inside_brace := decide (st.indent_level - 1 > 0) }
    else st
  else if c = ';' then
    { st with
      result := addIndentation (st.result ++ [';', '\n']) st.indent_level,
      inside_comment := false }
  else if c = ':' then
    { st with result := st.result ++ [':', ' '] }
  else if c = '(' then
    { st with result := st.result ++ ['(', ' '] }
  else if c = ')' then
    { st with result := st.result ++ [' ', ')'] }
  else if c = '/' then
    { st with result := st.result ++ ['/'] }
  else if c = '\n' then
    if st.inside_comment then
      { st with
        result := addIndentation (st.result ++ ['\n']) st.indent_level,
        inside_comment := false }
    else st
  else if c = ' ' then
    if st.result.getLast? = some ' ' then st
    else { st with result := st.result ++ [' '] }
  else
    { st with
      result := st.result ++ [c],
      inside_comment :=
        if st.inside_comment then (if c = '\n' then false else st.inside_comment)
        else st.inside_comment }

/-- The `/` arm when the peeked character is also `/`: both slashes are
pushed and `inside_comment` is set. -/
def commentStart (st : NormState) : NormState :=
  { st with result := st.result ++ ['/', '/'], inside_comment := true }

/-- The `while let Some(c) = chars.next()` loop of `normalize_code`, with
the one-character lookahead of the `/` arm realized by matching two list
cells at once. -/
def normalizeLoop : List Char → NormState → NormState
  | [], st => st
  | [c], st => normStep1 st c
  | c :: d :: rest, st =>
    if c = '/' ∧ d = '/' then
      normalizeLoop rest (commentStart st)
    else
      normalizeLoop (d :: rest) (normStep1 st c)

/-- The state at the start of `normalize_code`: empty output, indent 0,
both flags clear. -/
def initNormState : NormState := ⟨[], 0, false, false⟩

/-- Rust `char::is_whitespace` (the Unicode `White_Space` code points), as
used by `str::trim_end`. -/
def rustIsWhitespace (c : Char) : Bool :=
  c = ' ' || c = '\t' || c = '\n' || c.val = 0xB || c.val = 0xC || c = '\r' ||
  c.val = 0x85 || c.val = 0xA0 || c.val = 0x1680 ||
  (0x2000 ≤ c.val && c.val ≤ 0x200A) ||
  c.val = 0x2028 || c.val = 0x2029 || c.val = 0x202F || c.val = 0x205F ||
  c.val = 0x3000

/-- Rust `str::trim_end`: drop trailing whitespace characters. -/
def rustTrimEnd (l : List Char) : List Char :=
  (l.reverse.dropWhile rustIsWhitespace).reverse

/-- `Linter::normalize_code`: run the scan from the initial state, then
trim trailing whitespace from the accumulated result. -/
def normalize_code (code : String) : String :=
  String.mk (rustTrimEnd (normalizeLoop code.data initNormState).result)

/-! Basic unfolding lemmas for `normalizeLoop`. -/

theorem normalizeLoop_nil (st : NormState) : normalizeLoop [] st = st := rfl

theorem normalizeLoop_cons_ne (c : Char) (rest : List Char) (st : NormState)
    (h : c ≠ '/') :
    normalizeLoop (c :: rest) st = normalizeLoop rest (normStep1 st c) := by
  cases rest with
  | nil => rfl
  | cons d rest' =>
    show (if c = '/' ∧ d = '/' then _ else _) = _
    rw [if_neg]
    rintro ⟨rfl, -⟩
    exact h rfl

theorem normalizeLoop_slash_pair (rest : List Char) (st : NormState) :
    normalizeLoop ('/' :: '/' :: rest) st = normalizeLoop rest (commentStart st) := by
  show (if ('/' : Char) = '/' ∧ ('/' : Char) = '/' then _ else _) = _
  rw [if_pos ⟨rfl, rfl⟩]

theorem normalizeLoop_cons_slash_ne (d : Char) (rest : List Char) (st : NormState)
    (h : d ≠ '/') :
    normalizeLoop ('/' :: d :: rest) st = normalizeLoop (d :: rest) (normStep1 st '/') := by
  show (if ('/' : Char) = '/' ∧ d = '/' then _ else _) = _
  rw [if_neg]
  rintro ⟨-, rfl⟩
  exact h rfl

/-! Evaluation lemmas for the individual arms of `normStep1`. -/

theorem normStep1_open (st : NormState) :
    normStep1 st '{' =
      { st with
        result := st.result ++ '{' :: '\n' :: List.replicate (4 * (st.indent_level + 1)) ' ',
        indent_level := st.indent_level + 1,
        inside_brace := true } := by
  simp [normStep1, addIndentation]

theorem normStep1_close_brace (st : NormState) (h : st.inside_brace = true) :
    normStep1 st '}' =
      { st with
        result := st.result ++ '\n' ::
          (List.replicate (4 * (st.indent_level - 1)) ' ' ++ '}' :: '\n' ::
            List.replicate (4 * (st.indent_level - 1)) ' '),
        indent_level := st.indent_level - 1,
        inside_brace := decide (st.indent_level - 1 > 0) } := by
  simp [normStep1, addIndentation, h]

theorem normStep1_close_nobrace (st : NormState) (h : st.inside_brace = false) :
    normStep1 st '}' = st := by
  simp [normStep1, h]

theorem normStep1_semi (st : NormState) :
    normStep1 st ';' =
      { st with
        result := st.result ++ ';' :: '\n' :: List.replicate (4 * st.indent_level) ' ',
        inside_comment := false } := by
  simp [normStep1, addIndentation]

theorem normStep1_colon (st : NormState) :
    normStep1 st ':' = { st with result := st.result ++ [':', ' '] } := by
  simp [normStep1]

theorem normStep1_lparen (st : NormState) :
    normStep1 st '(' = { st with result := st.result ++ ['(', ' '] } := by
  simp [normStep1]

theorem normStep1_rparen (st : NormState) :
    normStep1 st ')' = { st with result := st.result ++ [' ', ')'] } := by
  simp [normStep1]

theorem normStep1_slash (st : NormState) :
    normStep1 st '/' = { st with result := st.result ++ ['/'] } := by
  simp [normStep1]

theorem normStep1_newline_comment (st : NormState) (h : st.inside_comment = true) :
    normStep1 st '\n' =
      { st with
        result := st.result ++ '\n' :: List.replicate (4 * st.indent_level) ' ',
        inside_comment := false } := by
  simp [normStep1, addIndentation, h]

theorem normStep1_newline_nocomment (st : NormState) (h : st.inside_comment = false) :
    normStep1 st '\n' = st := by
  simp [normStep1, h]

theorem normStep1_space (st : NormState) :
    normStep1 st ' ' =
      if st.result.getLast? = some ' ' then st
      else { st with result := st.result ++ [' '] } := by
  simp [normStep1]

theorem normStep1_default (st : NormState) (c : Char)
    (h1 : c ≠ '{') (h2 : c ≠ '}') (h3 : c ≠ ';') (h4 : c ≠ ':') (h5 : c ≠ '(')
    (h6 : c ≠ ')') (h7 : c ≠ '/') (h8 : c ≠ '\n') (h9 : c ≠ ' ') :
    normStep1 st c = { st with result := st.result ++ [c] } := by
  simp [normStep1, h1, h2, h3, h4, h5, h6, h7, h8, h9]

/-- Induction principle following the recursion pattern of `normalizeLoop`
(one cell at a time, except two cells for a `//` pair). -/
theorem normalizeLoop_induct (motive : List Char → NormState → Prop)
    (hnil : ∀ st, motive [] st)
    (hone : ∀ c st, motive [c] st)
    (hpair : ∀ c d rest st,
      (c = '/' → d = '/' → motive rest (commentStart st)) →
      (¬(c = '/' ∧ d = '/') → motive (d :: rest) (normStep1 st c)) →
      motive (c :: d :: rest) st) :
    ∀ l st, motive l st := by
  have H : ∀ n l st, List.length l ≤ n → motive l st := by
    intro n
    induction n with
    | zero =>
      intro l st hl
      have hl0 : l = [] := List.eq_nil_of_length_eq_zero (Nat.le_zero.mp hl)
      subst hl0
      exact hnil st
    | succ n ih =>
      intro l st hl
      match l with
      | [] => exact hnil st
      | [c] => exact hone c st
      | c :: d :: rest =>
        refine hpair c d rest st ?_ ?_
        · intro _ _
          exact ih rest _ (by simp at hl ⊢; omega)
        · intro _
          exact ih (d :: rest) _ (by simp at hl ⊢; omega)
  intro l st
  exact H l.length l st le_rfl

/-- A single transition keeps `inside_brace` equal to `indent_level > 0`. -/
theorem normStep1_brace_inv (st : NormState) (c : Char)
    (h : st.inside_brace = decide (0 < st.indent_level)) :
    (normStep1 st c).inside_brace = decide (0 < (normStep1 st c).indent_level) := by
  by_cases h1 : c = '{'
  · subst h1
    rw [normStep1_open]
    simp
  by_cases h2 : c = '}'
  · subst h2
    cases hb : st.inside_brace with
    | false => rw [normStep1_close_nobrace st hb]; exact h
    | true => rw [normStep1_close_brace st hb]
  by_cases h3 : c = ';'
  · subst h3; rw [normStep1_semi]; exact h
  by_cases h4 : c = ':'
  · subst h4; rw [normStep1_colon]; exact h
  by_cases h5 : c = '('
  · subst h5; rw [normStep1_lparen]; exact h
  by_cases h6 : c = ')'
  · subst h6; rw [normStep1_rparen]; exact h
  by_cases h7 : c = '/'
  · subst h7; rw [normStep1_slash]; exact h
  by_cases h8 : c = '\n'
  · subst h8
    cases hcm : st.inside_comment with
    | false => rw [normStep1_newline_nocomment st hcm]; exact h
    | true => rw [normStep1_newline_comment st hcm]; exact h
  by_cases h9 : c = ' '
  · subst h9
    rw [normStep1_space]
    split <;> exact h
  rw [normStep1_default st c h1 h2 h3 h4 h5 h6 h7 h8 h9]
  exact h

/-- Along any scan, `inside_brace` stays equal to `indent_level > 0`; this
is the invariant guarding the `indent_level -= 1` of the `}` arm. -/
theorem normalizeLoop_brace_inv :
    ∀ (l : List Char) (st : NormState),
      st.inside_brace = decide (0 < st.indent_level) →
      (normalizeLoop l st).inside_brace =
        decide (0 < (normalizeLoop l st).indent_level) := by
  refine normalizeLoop_induct
    (fun l st => st.inside_brace = decide (0 < st.indent_level) →
      (normalizeLoop l st).inside_brace =
        decide (0 < (normalizeLoop l st).indent_level)) ?_ ?_ ?_
  · intro st h
    rw [normalizeLoop_nil]
    exact h
  · intro c st h
    exact normStep1_brace_inv st c h
  · intro c d rest st hcom hstep h
    by_cases hc : c = '/' ∧ d = '/'
    · obtain ⟨rfl, rfl⟩ := hc
      rw [normalizeLoop_slash_pair]
      exact hcom rfl rfl (by simpa [commentStart] using h)
    · have heq : normalizeLoop (c :: d :: rest) st
          = normalizeLoop (d :: rest) (normStep1 st c) := by
        show (if c = '/' ∧ d = '/' then _ else _) = _
        rw [if_neg hc]
      rw [heq]
      exact hstep hc (normStep1_brace_inv st c h)

/-- One step of the indent evolution: `{` increments, `}` decrements with
truncation at zero, everything else leaves the level unchanged. -/
def clampStep (c : Char) (i : Nat) : Nat :=
  if c = '{' then i + 1 else if c = '}' then i - 1 else i

/-- The evolution of `indent_level` over a whole character list. -/
def clampFold : List Char → Nat → Nat
  | [], i => i
  | c :: t, i => clampFold t (clampStep c i)

/-- Under the brace invariant, one transition moves `indent_level` by
exactly `clampStep`. -/
theorem normStep1_indent (st : NormState) (c : Char)
    (h : st.inside_brace = decide (0 < st.indent_level)) :
    (normStep1 st c).indent_level = clampStep c st.indent_level := by
  by_cases h1 : c = '{'
  · subst h1
    rw [normStep1_open, clampStep, if_pos rfl]
  by_cases h2 : c = '}'
  · subst h2
    have hcs : clampStep '}' st.indent_level = st.indent_level - 1 := by
      rw [clampStep, if_neg (by decide), if_pos rfl]
    cases hb : st.inside_brace with
    | false =>
      rw [normStep1_close_nobrace st hb, hcs]
      rw [hb] at h
      have : ¬ (0 < st.indent_level) := of_decide_eq_false h.symm
      omega
    | true => rw [normStep1_close_brace st hb, hcs]
  have hcs : clampStep c st.indent_level = st.indent_level := by
    rw [clampStep, if_neg h1, if_neg h2]
  rw [hcs]
  by_cases h3 : c = ';'
  · subst h3; rw [normStep1_semi]
  by_cases h4 : c = ':'
  · subst h4; rw [normStep1_colon]
  by_cases h5 : c = '('
  · subst h5; rw [normStep1_lparen]
  by_cases h6 : c = ')'
  · subst h6; rw [normStep1_rparen]
  by_cases h7 : c = '/'
  · subst h7; rw [normStep1_slash]
  by_cases h8 : c = '\n'
  · subst h8
    cases hcm : st.inside_comment with
    | false => rw [normStep1_newline_nocomment st hcm]
    | true => rw [normStep1_newline_comment st hcm]
  by_cases h9 : c = ' '
  · subst h9
    rw [normStep1_space]
    split <;> rfl
  rw [normStep1_default st c h1 h2 h3 h4 h5 h6 h7 h8 h9]

/-- The scan's `indent_level` is exactly the clamped brace count. -/
theorem normalizeLoop_indent_eq_clampFold :
    ∀ (l : List Char) (st : NormState),
      st.inside_brace = decide (0 < st.indent_level) →
      (normalizeLoop l st).indent_level = clampFold l st.indent_level := by
  refine normalizeLoop_induct
    (fun l st => st.inside_brace = decide (0 < st.indent_level) →
      (normalizeLoop l st).indent_level = clampFold l st.indent_level) ?_ ?_ ?_
  · intro st h
    rw [normalizeLoop_nil, clampFold]
  · intro c st h
    show (normStep1 st c).indent_level = clampFold [c] st.indent_level
    rw [clampFold, clampFold]
    exact normStep1_indent st c h
  · intro c d rest st hcom hstep h
    by_cases hc : c = '/' ∧ d = '/'
    · obtain ⟨rfl, rfl⟩ := hc
      rw [normalizeLoop_slash_pair]
      have hfold : clampFold ('/' :: '/' :: rest) st.indent_level
          = clampFold rest st.indent_level := by
        rw [clampFold, clampFold, clampStep, clampStep]
        simp
      rw [hfold]
      exact hcom rfl rfl (by simpa [commentStart] using h)
    · have heq : normalizeLoop (c :: d :: rest) st
          = normalizeLoop (d :: rest) (normStep1 st c) := by
        show (if c = '/' ∧ d = '/' then _ else _) = _
        rw [if_neg hc]
      rw [heq]
      rw [hstep hc (normStep1_brace_inv st c h)]
      rw [normStep1_indent st c h]
      conv_rhs => rw [clampFold]

/-- When every prefix has at least as many `{` as `}` (counting from a
starting level `i`), the clamped fold never actually truncates:
`clampFold l i + count of closers = i + count of openers`. -/
theorem clampFold_add_count (l : List Char) :
    ∀ i : Nat, (∀ n, ((l.take n).count '}') ≤ i + (l.take n).count '{') →
      clampFold l i + l.count '}' = i + l.count '{' := by
  induction l with
  | nil =>
    intro i _
    simp [clampFold]
  | cons c t ih =>
    intro i hpre
    rw [clampFold]
    by_cases hc : c = '{'
    · subst hc
      have hstep : clampStep '{' i = i + 1 := by rw [clampStep, if_pos rfl]
      rw [hstep]
      have hpre' : ∀ n, ((t.take n).count '}') ≤ (i + 1) + (t.take n).count '{' := by
        intro n
        have h1 := hpre (n + 1)
        rw [List.take_succ_cons, List.count_cons, List.count_cons] at h1
        simp at h1
        omega
      have hIH := ih (i + 1) hpre'
      rw [List.count_cons, List.count_cons]
      simp
      omega
    by_cases hc2 : c = '}'
    · subst hc2
      have hi : 1 ≤ i := by
        have h1 := hpre 1
        rw [List.take_succ_cons] at h1
        simp at h1
        omega
      have hstep : clampStep '}' i = i - 1 := by
        rw [clampStep, if_neg (by decide), if_pos rfl]
      rw [hstep]
      have hpre' : ∀ n, ((t.take n).count '}') ≤ (i - 1) + (t.take n).count '{' := by
        intro n
        have h1 := hpre (n + 1)
        rw [List.take_succ_cons, List.count_cons, List.count_cons] at h1
        simp at h1
        omega
      have hIH := ih (i - 1) hpre'
      rw [List.count_cons, List.count_cons]
      simp
      omega
    · have hstep : clampStep c i = i := by rw [clampStep, if_neg hc, if_neg hc2]
      rw [hstep]
      have hpre' : ∀ n, ((t.take n).count '}') ≤ i + (t.take n).count '{' := by
        intro n
        have h1 := hpre (n + 1)
        rw [List.take_succ_cons, List.count_cons, List.count_cons] at h1
        simp [hc, hc2] at h1
        omega
      have hIH := ih i hpre'
      rw [List.count_cons, List.count_cons]
      simp [hc, hc2]
      omega

/-- C6 (confirmed).  If the braces of `s` are balanced — no prefix closes
more braces than it has opened, and the total numbers of `{` and `}`
agree — then after the scan has processed the final `}` the indent level
is `0`, so the indentation the `}` arm emits there (`4 * 0` spaces) is
empty. -/
theorem balanced_braces_final_indent_zero (s : String) (p q : List Char)
    (hsplit : s.data = p ++ '}' :: q)
    (hpref : ∀ n, n ≤ s.data.length →
      ((s.data.take n).count '}') ≤ (s.data.take n).count '{')
    (htotal : s.data.count '{' = s.data.count '}')
    (hq : '}' ∉ q) :
    (normalizeLoop (p ++ ['}']) initNormState).indent_level = 0 := by
  have hsplit' : s.data = (p ++ ['}']) ++ q := by
    rw [hsplit]
    simp
  have hind : (normalizeLoop (p ++ ['}']) initNormState).indent_level
      = clampFold (p ++ ['}']) 0 :=
    normalizeLoop_indent_eq_clampFold (p ++ ['}']) initNormState (by decide)
  have hpre : ∀ n, (((p ++ ['}']).take n).count '}')
      ≤ 0 + ((p ++ ['}']).take n).count '{' := by
    intro n
    by_cases hn : n ≤ (p ++ ['}']).length
    · have htake : (s.data.take n) = (p ++ ['}']).take n := by
        rw [hsplit']
        exact List.take_append_of_le_length hn
      have hp := hpref n (by rw [hsplit']; simp at hn ⊢; omega)
      rw [htake] at hp
      omega
    · have htake : (p ++ ['}']).take n = p ++ ['}'] := List.take_of_length_le (by omega)
      have htake2 : (s.data.take (p ++ ['}']).length) = p ++ ['}'] := by
        rw [hsplit', List.take_append_of_le_length le_rfl, List.take_length]
      have hp := hpref (p ++ ['}']).length (by rw [hsplit']; simp)
      rw [htake2] at hp
      rw [htake]
      omega
  have hsum := clampFold_add_count (p ++ ['}']) 0 hpre
  have hcq : q.count '}' = 0 := List.count_eq_zero.mpr hq
  have hc1 : (p ++ ['}']).count '}' = p.count '}' + 1 := by
    rw [List.count_append]
    simp
  have hc2 : (p ++ ['}']).count '{' = p.count '{' := by
    rw [List.count_append]
    simp
  have hctot : p.count '{' + q.count '{' = p.count '}' + 1 + q.count '}' := by
    have h0 := htotal
    rw [hsplit'] at h0
    simp [List.count_append] at h0
    omega
  have hle : (p ++ ['}']).count '}' ≤ (p ++ ['}']).count '{' := by
    have h0 := hpre (p ++ ['}']).length
    rw [List.take_of_length_le le_rfl] at h0
    omega
  rw [hind]
  omega

/-- C6 witness: the concrete balanced input `"{a}"`. -/
theorem balanced_braces_final_indent_zero_witness :
    (normalizeLoop (['{', 'a'] ++ ['}']) initNormState).indent_level = 0 :=
  balanced_braces_final_indent_zero (String.mk ['{', 'a', '}']) ['{', 'a'] []
    rfl (by decide) (by decide) (by decide)

/-- C9 (confirmed).  At any step of the scan (any prefix of the input),
`inside_brace = true` forces `indent_level ≥ 1`, so the `indent_level -= 1`
performed by the `}` arm (guarded by `inside_brace`) never underflows: the
subtraction is exact. -/
theorem inside_brace_implies_positive_indent (s : String) (n : Nat)
    (hb : (normalizeLoop (s.data.take n) initNormState).inside_brace = true) :
    1 ≤ (normalizeLoop (s.data.take n) initNormState).indent_level ∧
    (normalizeLoop (s.data.take n) initNormState).indent_level - 1 + 1
      = (normalizeLoop (s.data.take n) initNormState).indent_level := by
  have hinv := normalizeLoop_brace_inv (s.data.take n) initNormState (by decide)
  rw [hb] at hinv
  have hpos : 0 < (normalizeLoop (s.data.take n) initNormState).indent_level :=
    of_decide_eq_true hinv.symm
  exact ⟨hpos, by omega⟩

/-- C9 witness: after scanning the prefix `"{"` of `"{a"`, `inside_brace`
is true and the indent level is positive. -/
theorem inside_brace_implies_positive_indent_witness :
    (normalizeLoop ((String.mk ['{', 'a']).data.take 1) initNormState).inside_brace
      = true ∧
    1 ≤ (normalizeLoop ((String.mk ['{', 'a']).data.take 1) initNormState).indent_level :=
  ⟨by decide,
    (inside_brace_implies_positive_indent (String.mk ['{', 'a']) 1 (by decide)).1⟩

/-- C2 counterexample.  Inside a `//` comment a `{` still fires its
formatting arm: the comment body `{a` of `"//{a"` is not copied verbatim —
a newline and a four-space indentation are inserted after the `{` — and
the scan's indent level has changed to 1 while `inside_comment` was true. -/
theorem comment_not_preserved_verbatim :
    normalize_code (String.mk ['/', '/', '{', 'a'])
      = String.mk ['/', '/', '{', '\n', ' ', ' ', ' ', ' ', 'a'] ∧
    String.mk ['/', '/', '{', '\n', ' ', ' ', ' ', ' ', 'a']
      ≠ String.mk ['/', '/', '{', 'a'] ∧
    (normalizeLoop ['/', '/', '{', 'a'] initNormState).indent_level = 1 :=
  ⟨by decide, by decide, by decide⟩

/-- C2 (corrected).  The `inside_comment` flag changes the handling of
`'\n'` only: for every other character the transition emits exactly the
same text and moves `indent_level` and `inside_brace` exactly the same way
whether or not the scan is inside a comment.  In particular `;`, `{` and
`}` inside a comment do fire their normal formatting arms. -/
theorem comment_flag_irrelevant_except_newline (r : List Char) (i : Nat)
    (br : Bool) (c : Char) (h : c ≠ '\n') :
    (normStep1 ⟨r, i, br, true⟩ c).result = (normStep1 ⟨r, i, br, false⟩ c).result ∧
    (normStep1 ⟨r, i, br, true⟩ c).indent_level
      = (normStep1 ⟨r, i, br, false⟩ c).indent_level ∧
    (normStep1 ⟨r, i, br, true⟩ c).inside_brace
      = (normStep1 ⟨r, i, br, false⟩ c).inside_brace := by
  by_cases h1 : c = '{'
  · subst h1
    rw [normStep1_open, normStep1_open]
    simp
  by_cases h2 : c = '}'
  · subst h2
    cases br with
    | false =>
      rw [normStep1_close_nobrace ⟨r, i, false, true⟩ rfl,
        normStep1_close_nobrace ⟨r, i, false, false⟩ rfl]
      simp
    | true =>
      rw [normStep1_close_brace ⟨r, i, true, true⟩ rfl,
        normStep1_close_brace ⟨r, i, true, false⟩ rfl]
      simp
  by_cases h3 : c = ';'
  · subst h3
    rw [normStep1_semi, normStep1_semi]
    simp
  by_cases h4 : c = ':'
  · subst h4
    rw [normStep1_colon, normStep1_colon]
    simp
  by_cases h5 : c = '('
  · subst h5
    rw [normStep1_lparen, normStep1_lparen]
    simp
  by_cases h6 : c = ')'
  · subst h6
    rw [normStep1_rparen, normStep1_rparen]
    simp
  by_cases h7 : c = '/'
  · subst h7
    rw [normStep1_slash, normStep1_slash]
    simp
  by_cases h9 : c = ' '
  · subst h9
    rw [normStep1_space, normStep1_space]
    by_cases hsp : r.getLast? = some ' '
    · simp [hsp]
    · simp [hsp]
  rw [normStep1_default _ c h1 h2 h3 h4 h5 h6 h7 h h9,
    normStep1_default _ c h1 h2 h3 h4 h5 h6 h7 h h9]
  simp

/-- C2 witness: the theorem applied at the initial state's fields and `';'`. -/
theorem comment_flag_irrelevant_except_newline_witness :
    (normStep1 ⟨[], 0, false, true⟩ ';').result
      = (normStep1 ⟨[], 0, false, false⟩ ';').result ∧
    (normStep1 ⟨[], 0, false, true⟩ ';').indent_level
      = (normStep1 ⟨[], 0, false, false⟩ ';').indent_level ∧
    (normStep1 ⟨[], 0, false, true⟩ ';').inside_brace
      = (normStep1 ⟨[], 0, false, false⟩ ';').inside_brace :=
  comment_flag_irrelevant_except_newline [] 0 false ';' (by decide)

/-- C7 counterexample.  The input `" "` is a maximal run of one space, yet
the output contains no space at all (the run is emitted and then removed
by the final trim), so a run does not always map to exactly one output
space. -/
theorem space_run_can_vanish :
    (normalize_code " ").data.count ' ' = 0 ∧ (" ").data.count ' ' = 1 :=
  ⟨by decide, by decide⟩

/-- C7 (corrected).  A run of `k ≥ 1` spaces is processed as one
conditional space: the whole run adds exactly one space to the accumulated
output when it does not already end in a space, and nothing otherwise
(the final trim can additionally delete such a space at the end of the
output). -/
theorem space_run_single_conditional_space (k : Nat) (hk : 1 ≤ k)
    (rest : List Char) (st : NormState) :
    normalizeLoop (List.replicate k ' ' ++ rest) st =
      normalizeLoop rest
        (if st.result.getLast? = some ' ' then st
         else { st with result := st.result ++ [' '] }) := by
  induction k generalizing st with
  | zero => omega
  | succ m ih =>
    rw [List.replicate_succ, List.cons_append,
      normalizeLoop_cons_ne _ _ _ (by decide), normStep1_space]
    cases Nat.eq_zero_or_pos m with
    | inl h0 =>
      subst h0
      simp
    | inr hm =>
      rw [ih hm]
      by_cases hsp : st.result.getLast? = some ' '
      · simp [hsp]
      · simp [hsp, List.getLast?_concat]


/-! The `lint` orchestration (`Linter::lint` and `compile_leo_file`),
embedded as an interpreter over an abstract environment describing the
outcomes of every external collaborator call.  The interpreter returns the
list of externally visible events in order, together with the outcome. -/

/-- Dependency symbols (interned names) are modelled as strings. -/
abbrev DepSym := String

/-- A source file within a dependency's source directory. -/
abbrev FileId := Nat

/-- The structured `UtilError` values that `lint` itself constructs or
propagates through `?`. -/
inductive UtilError where
  | failed_to_retrieve_dependencies
  | prepare_local_error
  | snarkvm_error_building_program_id
  deriving Repr, DecidableEq

/-- How a run ends early: a structured error returned in the `Result`, or
a panic raised by an `expect`/`unwrap` with its message. -/
inductive LintAbort where
  | aerr (e : UtilError)
  | apanic (msg : String)
  deriving Repr, DecidableEq

/-- The observable outcome of `lint`. -/
inductive LintOutcome where
  | ok
  | err (e : UtilError)
  | panicked (msg : String)
  deriving Repr, DecidableEq

/-- Externally visible events of a `lint` run, in program order. -/
inductive Event where
  | removeTopBuild
  | createPackage
  | retrieverNew
  | retrieve
  | prepareLocal (d : DepSym)
  | createOutputs (d : DepSym)
  | createBuild (d : DepSym)
  | listFiles (d : DepSym)
  | checkFiles (d : DepSym)
  | compile (d : DepSym) (f : FileId)
  | createAleoFile (d : DepSym) (f : FileId)
  | writeAleoFile (d : DepSym) (f : FileId)
  | removeBuildDir (d : DepSym)
  | removeOutputsDir (d : DepSym)
  | readFile (d : DepSym) (f : FileId)
  | writeFile (d : DepSym) (f : FileId) (contents : String)
  deriving Repr, DecidableEq

/-- Abstract environment: the success or failure of every collaborator
call, the resolved dependency list, each dependency's source files, and
each file's text. -/
structure LintEnv where
  main_sym : DepSym
  top_build_exists : Bool
  remove_top_build_ok : Bool
  package_create_ok : Bool
  retriever_new_ok : Bool
  retrieve_ok : Bool
  retrieve_deps : List DepSym
  prepare_local_ok : DepSym → Bool
  outputs_create_ok : DepSym → Bool
  build_create_ok : DepSym → Bool
  files_ok : DepSym → Bool
  files : DepSym → List FileId
  check_files_ok : DepSym → Bool
  program_id_ok : DepSym → Bool
  compile_ok : DepSym → FileId → Bool
  file_create_ok : DepSym → FileId → Bool
  write_all_ok : DepSym → FileId → Bool
  remove_build_ok : DepSym → Bool
  remove_outputs_ok : DepSym → Bool
  read_ok : DepSym → FileId → Bool
  content : DepSym → FileId → String
  write_ok : DepSym → FileId → Bool

/-- The inner `for file_path in local_source_files` compile loop: per file,
build the dependency's program id (a `?`-propagated `UtilError` on
failure), then `compile_leo_file`: `compiler.compile()` (panics on
failure), `File::create` and `write_all` for the aleo artifact (both panic
on failure). -/
def compileFilesPhase (env : LintEnv) (d : DepSym) :
    List FileId → List Event × Option LintAbort
  | [] => ([], none)
  | f :: fs =>
    if env.program_id_ok d = false then
      ([], some (.aerr .snarkvm_error_building_program_id))
    else if env.compile_ok d f = false then
      ([Event.compile d f], some (.apanic "Failed to compile"))
    else if env.file_create_ok d f = false then
      ([Event.compile d f, Event.createAleoFile d f],
        some (.apanic "Failed to create file"))
    else if env.write_all_ok d f = false then
      ([Event.compile d f, Event.createAleoFile d f, Event.writeAleoFile d f],
        some (.apanic "Failed to write file"))
    else
      let rest := compileFilesPhase env d fs
      (Event.compile d f :: Event.createAleoFile d f :: Event.writeAleoFile d f
        :: rest.1, rest.2)

/-- The reformatting loop: per file, `fs::read_to_string` (panics on
failure), `normalize_code`, `fs::write` (panics on failure).  The write is
unconditional: no comparison with the existing contents is made. -/
def formatFilesPhase (env : LintEnv) (d : DepSym) :
    List FileId → List Event × Option LintAbort
  | [] => ([], none)
  | f :: fs =>
    if env.read_ok d f = false then
      ([Event.readFile d f], some (.apanic "Failed to read file"))
    else if env.write_ok d f = false then
      ([Event.readFile d f,
        Event.writeFile d f (normalize_code (env.content d f))],
        some (.apanic "Failed to write file"))
    else
      let rest := formatFilesPhase env d fs
      (Event.readFile d f
        :: Event.writeFile d f (normalize_code (env.content d f)) :: rest.1,
        rest.2)

/-- One iteration of the `for dependency in local_dependencies` loop:
`prepare_local` (a `?`-propagated error on failure), create the outputs
and build scratch directories, enumerate and check source files (all four
panic on failure), compile every file, remove both scratch directories
(panics on failure), then reformat every file. -/
def depPhase (env : LintEnv) (d : DepSym) : List Event × Option LintAbort :=
  if env.prepare_local_ok d = false then
    ([Event.prepareLocal d], some (.aerr .prepare_local_error))
  else if env.outputs_create_ok d = false then
    ([Event.prepareLocal d, Event.createOutputs d],
      some (.apanic "Failed create local outputs directory"))
  else if env.build_create_ok d = false then
    ([Event.prepareLocal d, Event.createOutputs d, Event.createBuild d],
      some (.apanic "Failed to create local build directory"))
  else if env.files_ok d = false then
    ([Event.prepareLocal d, Event.createOutputs d, Event.createBuild d,
      Event.listFiles d], some (.apanic "Failed to find local source files"))
  else if env.check_files_ok d = false then
    ([Event.prepareLocal d, Event.createOutputs d, Event.createBuild d,
      Event.listFiles d, Event.checkFiles d],
      some (.apanic "Failed to check files"))
  else
    match (compileFilesPhase env d (env.files d)).2 with
    | some a =>
      ([Event.prepareLocal d, Event.createOutputs d, Event.createBuild d,
        Event.listFiles d, Event.checkFiles d]
        ++ (compileFilesPhase env d (env.files d)).1, some a)
    | none =>
      if env.remove_build_ok d = false then
        ([Event.prepareLocal d, Event.createOutputs d, Event.createBuild d,
          Event.listFiles d, Event.checkFiles d]
          ++ (compileFilesPhase env d (env.files d)).1
          ++ [Event.removeBuildDir d],
          some (.apanic "Failed to remove build directory"))
      else if env.remove_outputs_ok d = false then
        ([Event.prepareLocal d, Event.createOutputs d, Event.createBuild d,
          Event.listFiles d, Event.checkFiles d]
          ++ (compileFilesPhase env d (env.files d)).1
          ++ [Event.removeBuildDir d, Event.removeOutputsDir d],
          some (.apanic "Failed to remove outputs directory"))
      else
        ([Event.prepareLocal d, Event.createOutputs d, Event.createBuild d,
          Event.listFiles d, Event.checkFiles d]
          ++ (compileFilesPhase env d (env.files d)).1
          ++ [Event.removeBuildDir d, Event.removeOutputsDir d]
          ++ (formatFilesPhase env d (env.files d)).1,
          (formatFilesPhase env d (env.files d)).2)

/-- The dependency loop: strictly sequential, stopping at the first
abort. -/
def lintDeps (env : LintEnv) : List DepSym → List Event × Option LintAbort
  | [] => ([], none)
  | d :: ds =>
    match (depPhase env d).2 with
    | some a => ((depPhase env d).1, some a)
    | none =>
      ((depPhase env d).1 ++ (lintDeps env ds).1, (lintDeps env ds).2)

/-- `Linter::lint`: delete a pre-existing top-level build directory
(panics on failure), create the package scaffold (panics on failure),
construct the retriever and retrieve the dependency closure (both
`?`-propagated `UtilError`s on failure), append the main symbol, and run
the dependency loop. -/
def lint (env : LintEnv) : List Event × LintOutcome :=
  if env.top_build_exists = true ∧ env.remove_top_build_ok = false then
    ((if env.top_build_exists then [Event.removeTopBuild] else []),
      .panicked "Failed to remove build directory")
  else if env.package_create_ok = false then
    ((if env.top_build_exists then [Event.removeTopBuild] else [])
      ++ [Event.createPackage], .panicked "Failed to create package")
  else if env.retriever_new_ok = false then
    ((if env.top_build_exists then [Event.removeTopBuild] else [])
      ++ [Event.createPackage, Event.retrieverNew],
      .err .failed_to_retrieve_dependencies)
  else if env.retrieve_ok = false then
    ((if env.top_build_exists then [Event.removeTopBuild] else [])
      ++ [Event.createPackage, Event.retrieverNew, Event.retrieve],
      .err .failed_to_retrieve_dependencies)
  else
    ((if env.top_build_exists then [Event.removeTopBuild] else [])
      ++ [Event.createPackage, Event.retrieverNew, Event.retrieve]
      ++ (lintDeps env (env.retrieve_deps ++ [env.main_sym])).1,
      match (lintDeps env (env.retrieve_deps ++ [env.main_sym])).2 with
      | some (.aerr e) => .err e
      | some (.apanic m) => .panicked m
      | none => .ok)

/-- The `Linter` struct: the four values passed to `Linter::new`. -/
structure Linter where
  package_path : String
  home_path : String
  program_id : String
  endpoint : String
  deriving Repr, DecidableEq

/-- `Linter::new`: clones its four arguments into the struct and returns
`Ok`; no code path returns `Err` despite the `Result` return type. -/
def Linter.new (program_id : String) (endpoint : String)
    (package_path : String) (home_path : String) : Except UtilError Linter :=
  .ok { package_path := package_path, endpoint := endpoint,
        program_id := program_id, home_path := home_path }

/-- An all-success environment with one retrieved dependency `"dep"` plus
the main package `"main"`, one source file each. -/
def envAllOk : LintEnv where
  main_sym := "main"
  top_build_exists := true
  remove_top_build_ok := true
  package_create_ok := true
  retriever_new_ok := true
  retrieve_ok := true
  retrieve_deps := ["dep"]
  prepare_local_ok := fun _ => true
  outputs_create_ok := fun _ => true
  build_create_ok := fun _ => true
  files_ok := fun _ => true
  files := fun _ => [0]
  check_files_ok := fun _ => true
  program_id_ok := fun _ => true
  compile_ok := fun _ _ => true
  file_create_ok := fun _ _ => true
  write_all_ok := fun _ _ => true
  remove_build_ok := fun _ => true
  remove_outputs_ok := fun _ => true
  read_ok := fun _ _ => true
  content := fun _ _ => "a"
  write_ok := fun _ _ => true

/-- Like `envAllOk` but compilation of the main package's only file
fails. -/
def envCompileFail : LintEnv :=
  { envAllOk with retrieve_deps := [], compile_ok := fun _ _ => false }

/-- A family of environments with a single dependency (`"main"`) and a
single file, in which five knobs control the retriever construction,
the retrieval, the local staging, the program-id construction and the
compilation. -/
def envKnobs (rnew rok prep pid comp : Bool) : LintEnv :=
  { envAllOk with
    retrieve_deps := [],
    retriever_new_ok := rnew,
    retrieve_ok := rok,
    prepare_local_ok := fun _ => prep,
    program_id_ok := fun _ => pid,
    compile_ok := fun _ _ => comp }

/-- Environment with dependencies `["A", "B"]` (main `"B"`) in which the
only file of `"A"` fails to compile. -/
def envTwoDeps : LintEnv :=
  { envAllOk with
    main_sym := "B",
    retrieve_deps := ["A"],
    compile_ok := fun d _ => d != "A" }


/-! Structural lemmas about the `lint` interpreter. -/

/-- The dependency a per-dependency event belongs to (`none` for the four
top-level events). -/
def eventDep : Event → Option DepSym
  | .removeTopBuild => none
  | .createPackage => none
  | .retrieverNew => none
  | .retrieve => none
  | .prepareLocal d => some d
  | .createOutputs d => some d
  | .createBuild d => some d
  | .listFiles d => some d
  | .checkFiles d => some d
  | .compile d _ => some d
  | .createAleoFile d _ => some d
  | .writeAleoFile d _ => some d
  | .removeBuildDir d => some d
  | .removeOutputsDir d => some d
  | .readFile d _ => some d
  | .writeFile d _ _ => some d

/-- The three event kinds the compile loop can emit. -/
def isCompileKind : Event → Bool
  | .compile _ _ => true
  | .createAleoFile _ _ => true
  | .writeAleoFile _ _ => true
  | _ => false

theorem compileFilesPhase_shape (env : LintEnv) (d : DepSym) :
    ∀ fs : List FileId, ∀ e ∈ (compileFilesPhase env d fs).1,
      eventDep e = some d ∧ isCompileKind e = true := by
  intro fs
  induction fs with
  | nil =>
    intro e he
    simp [compileFilesPhase] at he
  | cons f fs ih =>
    intro e he
    unfold compileFilesPhase at he
    by_cases h1 : env.program_id_ok d = false
    · rw [if_pos h1] at he
      simp at he
    rw [if_neg h1] at he
    by_cases h2 : env.compile_ok d f = false
    · rw [if_pos h2] at he
      simp at he
      subst he
      exact ⟨rfl, rfl⟩
    rw [if_neg h2] at he
    by_cases h3 : env.file_create_ok d f = false
    · rw [if_pos h3] at he
      simp only [List.mem_cons, List.mem_singleton] at he
      rcases he with rfl | rfl | he
      · exact ⟨rfl, rfl⟩
      · exact ⟨rfl, rfl⟩
      · cases he
    rw [if_neg h3] at he
    by_cases h4 : env.write_all_ok d f = false
    · rw [if_pos h4] at he
      simp only [List.mem_cons, List.mem_singleton] at he
      rcases he with rfl | rfl | rfl | he
      · exact ⟨rfl, rfl⟩
      · exact ⟨rfl, rfl⟩
      · exact ⟨rfl, rfl⟩
      · cases he
    rw [if_neg h4] at he
    simp only [List.mem_cons] at he
    rcases he with rfl | rfl | rfl | he
    · exact ⟨rfl, rfl⟩
    · exact ⟨rfl, rfl⟩
    · exact ⟨rfl, rfl⟩
    · exact ih e he

/-- If some listed file fails to compile, the compile loop cannot finish
cleanly. -/
theorem compileFilesPhase_fail (env : LintEnv) (d : DepSym) (f0 : FileId)
    (hfail : env.compile_ok d f0 = false) :
    ∀ fs : List FileId, f0 ∈ fs → (compileFilesPhase env d fs).2 ≠ none := by
  intro fs
  induction fs with
  | nil =>
    intro h
    cases h
  | cons f fs ih =>
    intro hmem
    unfold compileFilesPhase
    by_cases h1 : env.program_id_ok d = false
    · rw [if_pos h1]
      simp
    rw [if_neg h1]
    by_cases h2 : env.compile_ok d f = false
    · rw [if_pos h2]
      simp
    rw [if_neg h2]
    by_cases h3 : env.file_create_ok d f = false
    · rw [if_pos h3]
      simp
    rw [if_neg h3]
    by_cases h4 : env.write_all_ok d f = false
    · rw [if_pos h4]
      simp
    rw [if_neg h4]
    have hne : f0 ≠ f := by
      rintro rfl
      rw [hfail] at h2
      exact h2 rfl
    rcases List.mem_cons.mp hmem with h | h
    · exact absurd h hne
    · exact ih h

theorem formatFilesPhase_dep (env : LintEnv) (d : DepSym) :
    ∀ fs : List FileId, ∀ e ∈ (formatFilesPhase env d fs).1,
      eventDep e = some d := by
  intro fs
  induction fs with
  | nil =>
    intro e he
    simp [formatFilesPhase] at he
  | cons f fs ih =>
    intro e he
    unfold formatFilesPhase at he
    by_cases h1 : env.read_ok d f = false
    · rw [if_pos h1] at he
      simp at he
      subst he
      rfl
    rw [if_neg h1] at he
    by_cases h2 : env.write_ok d f = false
    · rw [if_pos h2] at he
      simp only [List.mem_cons, List.mem_singleton] at he
      rcases he with rfl | rfl | he
      · rfl
      · rfl
      · cases he
    rw [if_neg h2] at he
    simp only [List.mem_cons] at he
    rcases he with rfl | rfl | he
    · rfl
    · rfl
    · exact ih e he

/-- Characterization of a dependency phase that finishes cleanly: every
collaborator call succeeded and the events are the staging calls, the
compile loop, the two scratch removals, and the reformat loop, in that
order. -/
theorem depPhase_none_struct (env : LintEnv) (d : DepSym)
    (h : (depPhase env d).2 = none) :
    (compileFilesPhase env d (env.files d)).2 = none ∧
    (formatFilesPhase env d (env.files d)).2 = none ∧
    (depPhase env d).1
      = [Event.prepareLocal d, Event.createOutputs d, Event.createBuild d,
         Event.listFiles d, Event.checkFiles d]
        ++ (compileFilesPhase env d (env.files d)).1
        ++ [Event.removeBuildDir d, Event.removeOutputsDir d]
        ++ (formatFilesPhase env d (env.files d)).1 := by
  by_cases h1 : env.prepare_local_ok d = false
  · simp [depPhase, h1] at h
  simp only [Bool.not_eq_false] at h1
  by_cases h2 : env.outputs_create_ok d = false
  · simp [depPhase, h1, h2] at h
  simp only [Bool.not_eq_false] at h2
  by_cases h3 : env.build_create_ok d = false
  · simp [depPhase, h1, h2, h3] at h
  simp only [Bool.not_eq_false] at h3
  by_cases h4 : env.files_ok d = false
  · simp [depPhase, h1, h2, h3, h4] at h
  simp only [Bool.not_eq_false] at h4
  by_cases h5 : env.check_files_ok d = false
  · simp [depPhase, h1, h2, h3, h4, h5] at h
  simp only [Bool.not_eq_false] at h5
  cases hcomp : (compileFilesPhase env d (env.files d)).2 with
  | some a =>
    simp [depPhase, h1, h2, h3, h4, h5, hcomp] at h
  | none =>
    by_cases h6 : env.remove_build_ok d = false
    · simp [depPhase, h1, h2, h3, h4, h5, hcomp, h6] at h
    simp only [Bool.not_eq_false] at h6
    by_cases h7 : env.remove_outputs_ok d = false
    · simp [depPhase, h1, h2, h3, h4, h5, hcomp, h6, h7] at h
    simp only [Bool.not_eq_false] at h7
    refine ⟨rfl, ?_, ?_⟩
    · simpa [depPhase, h1, h2, h3, h4, h5, hcomp, h6, h7] using h
    · simp [depPhase, h1, h2, h3, h4, h5, hcomp, h6, h7]

/-- Every event a dependency phase emits belongs to that dependency. -/
theorem depPhase_dep (env : LintEnv) (d : DepSym) :
    ∀ e ∈ (depPhase env d).1, eventDep e = some d := by
  intro e he
  have hfront : ∀ a : Event, a ∈ [Event.prepareLocal d, Event.createOutputs d,
      Event.createBuild d, Event.listFiles d, Event.checkFiles d] →
      eventDep a = some d := by
    intro a ha
    simp only [List.mem_cons, List.not_mem_nil, or_false] at ha
    rcases ha with rfl | rfl | rfl | rfl | rfl <;> rfl
  by_cases h1 : env.prepare_local_ok d = false
  · simp [depPhase, h1] at he
    subst he
    rfl
  simp only [Bool.not_eq_false] at h1
  by_cases h2 : env.outputs_create_ok d = false
  · simp [depPhase, h1, h2] at he
    rcases he with rfl | rfl <;> rfl
  simp only [Bool.not_eq_false] at h2
  by_cases h3 : env.build_create_ok d = false
  · simp [depPhase, h1, h2, h3] at he
    rcases he with rfl | rfl | rfl <;> rfl
  simp only [Bool.not_eq_false] at h3
  by_cases h4 : env.files_ok d = false
  · simp [depPhase, h1, h2, h3, h4] at he
    rcases he with rfl | rfl | rfl | rfl <;> rfl
  simp only [Bool.not_eq_false] at h4
  by_cases h5 : env.check_files_ok d = false
  · simp [depPhase, h1, h2, h3, h4, h5] at he
    rcases he with rfl | rfl | rfl | rfl | rfl <;> rfl
  simp only [Bool.not_eq_false] at h5
  cases hcomp : (compileFilesPhase env d (env.files d)).2 with
  | some a =>
    simp [depPhase, h1, h2, h3, h4, h5, hcomp] at he
    rcases he with rfl | rfl | rfl | rfl | rfl | he
    · rfl
    · rfl
    · rfl
    · rfl
    · rfl
    · exact (compileFilesPhase_shape env d _ e he).1
  | none =>
    by_cases h6 : env.remove_build_ok d = false
    · simp [depPhase, h1, h2, h3, h4, h5, hcomp, h6] at he
      rcases he with rfl | rfl | rfl | rfl | rfl | he | rfl
      · rfl
      · rfl
      · rfl
      · rfl
      · rfl
      · exact (compileFilesPhase_shape env d _ e he).1
      · rfl
    simp only [Bool.not_eq_false] at h6
    by_cases h7 : env.remove_outputs_ok d = false
    · simp [depPhase, h1, h2, h3, h4, h5, hcomp, h6, h7] at he
      rcases he with rfl | rfl | rfl | rfl | rfl | he | rfl | rfl
      · rfl
      · rfl
      · rfl
      · rfl
      · rfl
      · exact (compileFilesPhase_shape env d _ e he).1
      · rfl
      · rfl
    simp only [Bool.not_eq_false] at h7
    simp [depPhase, h1, h2, h3, h4, h5, hcomp, h6, h7] at he
    rcases he with rfl | rfl | rfl | rfl | rfl | he | rfl | rfl | he
    · rfl
    · rfl
    · rfl
    · rfl
    · rfl
    · exact (compileFilesPhase_shape env d _ e he).1
    · rfl
    · rfl
    · exact formatFilesPhase_dep env d _ e he

/-- If some file of `d` fails to compile, the dependency phase aborts and
emits no `writeFile` event at all (the reformat loop is never reached). -/
theorem depPhase_compile_fail (env : LintEnv) (d : DepSym) (f0 : FileId)
    (hf0 : f0 ∈ env.files d) (hfail : env.compile_ok d f0 = false) :
    (depPhase env d).2 ≠ none ∧
    ∀ d' f c, Event.writeFile d' f c ∉ (depPhase env d).1 := by
  have hcomp2 := compileFilesPhase_fail env d f0 hfail (env.files d) hf0
  constructor
  · intro hnone
    exact hcomp2 (depPhase_none_struct env d hnone).1
  · intro d' f c he
    by_cases h1 : env.prepare_local_ok d = false
    · simp [depPhase, h1] at he
    simp only [Bool.not_eq_false] at h1
    by_cases h2 : env.outputs_create_ok d = false
    · simp [depPhase, h1, h2] at he
    simp only [Bool.not_eq_false] at h2
    by_cases h3 : env.build_create_ok d = false
    · simp [depPhase, h1, h2, h3] at he
    simp only [Bool.not_eq_false] at h3
    by_cases h4 : env.files_ok d = false
    · simp [depPhase, h1, h2, h3, h4] at he
    simp only [Bool.not_eq_false] at h4
    by_cases h5 : env.check_files_ok d = false
    · simp [depPhase, h1, h2, h3, h4, h5] at he
    simp only [Bool.not_eq_false] at h5
    cases hcomp : (compileFilesPhase env d (env.files d)).2 with
    | some a =>
      simp [depPhase, h1, h2, h3, h4, h5, hcomp] at he
      have hk := (compileFilesPhase_shape env d _ _ he).2
      simp [isCompileKind] at hk
    | none =>
      exact hcomp2 hcomp

theorem lintDeps_cons_some (env : LintEnv) (d : DepSym) (ds : List DepSym)
    (a : LintAbort) (h : (depPhase env d).2 = some a) :
    lintDeps env (d :: ds) = ((depPhase env d).1, some a) := by
  simp [lintDeps, h]

theorem lintDeps_cons_none (env : LintEnv) (d : DepSym) (ds : List DepSym)
    (h : (depPhase env d).2 = none) :
    lintDeps env (d :: ds)
      = ((depPhase env d).1 ++ (lintDeps env ds).1, (lintDeps env ds).2) := by
  simp [lintDeps, h]

/-- When the dependency loop finishes cleanly, every dependency's phase
finished cleanly and contributed its events to the trace. -/
theorem lintDeps_none_mem (env : LintEnv) :
    ∀ ds : List DepSym, (lintDeps env ds).2 = none →
      ∀ d ∈ ds, (depPhase env d).2 = none ∧
        ∀ e ∈ (depPhase env d).1, e ∈ (lintDeps env ds).1 := by
  intro ds
  induction ds with
  | nil =>
    intro _ d hd
    cases hd
  | cons d0 ds ih =>
    intro h d hd
    cases hph : (depPhase env d0).2 with
    | some x =>
      rw [lintDeps_cons_some env d0 ds x hph] at h
      simp at h
    | none =>
      have h' : (lintDeps env ds).2 = none := by
        rw [lintDeps_cons_none env d0 ds hph] at h
        exact h
      rcases List.mem_cons.mp hd with rfl | hd'
      · refine ⟨hph, ?_⟩
        intro e he
        rw [lintDeps_cons_none env d ds hph]
        exact List.mem_append_left _ he
      · obtain ⟨ha, hb⟩ := ih h' d hd'
        refine ⟨ha, ?_⟩
        intro e he
        rw [lintDeps_cons_none env d0 ds hph]
        exact List.mem_append_right _ (hb e he)

/-- Fail-fast over the dependency loop: if some file of `dA` fails to
compile, then no file of `dA` or of any later dependency is rewritten, and
no file of a later dependency is compiled. -/
theorem lintDeps_fail_fast (env : LintEnv) (dA : DepSym) (f0 : FileId)
    (hf0 : f0 ∈ env.files dA) (hfail : env.compile_ok dA f0 = false) :
    ∀ pre post : List DepSym, (pre ++ dA :: post).Nodup →
      (∀ f c, Event.writeFile dA f c ∉ (lintDeps env (pre ++ dA :: post)).1) ∧
      ∀ dB ∈ post,
        (∀ f c, Event.writeFile dB f c ∉ (lintDeps env (pre ++ dA :: post)).1) ∧
        ∀ f, Event.compile dB f ∉ (lintDeps env (pre ++ dA :: post)).1 := by
  intro pre
  induction pre with
  | nil =>
    intro post hnd
    rw [List.nil_append] at hnd ⊢
    obtain ⟨habort, hnowrite⟩ := depPhase_compile_fail env dA f0 hf0 hfail
    cases hph : (depPhase env dA).2 with
    | none => exact absurd hph habort
    | some a =>
      constructor
      · intro f c hmem
        rw [lintDeps_cons_some env dA post a hph] at hmem
        exact hnowrite dA f c hmem
      · intro dB hdB
        have hne : dB ≠ dA := by
          intro hEq
          subst hEq
          rw [List.nodup_cons] at hnd
          exact hnd.1 hdB
        refine ⟨?_, ?_⟩
        · intro f c hmem
          rw [lintDeps_cons_some env dA post a hph] at hmem
          exact hnowrite dB f c hmem
        · intro f hmem
          rw [lintDeps_cons_some env dA post a hph] at hmem
          have hdep := depPhase_dep env dA _ hmem
          simp [eventDep] at hdep
          exact hne hdep
  | cons d0 pre' ih =>
    intro post hnd
    rw [List.cons_append] at hnd ⊢
    have hnd' : (pre' ++ dA :: post).Nodup := (List.nodup_cons.mp hnd).2
    have hd0notin : d0 ∉ pre' ++ dA :: post := (List.nodup_cons.mp hnd).1
    have hd0A : d0 ≠ dA := by
      intro hEq
      subst hEq
      exact hd0notin (by simp)
    have hd0B : ∀ dB ∈ post, d0 ≠ dB := by
      intro dB hdB hEq
      subst hEq
      exact hd0notin (by simp [hdB])
    obtain ⟨ihA, ihB⟩ := ih post hnd'
    cases hph : (depPhase env d0).2 with
    | some a =>
      constructor
      · intro f c hmem
        rw [lintDeps_cons_some env d0 _ a hph] at hmem
        have hdep := depPhase_dep env d0 _ hmem
        simp [eventDep] at hdep
        exact hd0A hdep.symm
      · intro dB hdB
        refine ⟨?_, ?_⟩
        · intro f c hmem
          rw [lintDeps_cons_some env d0 _ a hph] at hmem
          have hdep := depPhase_dep env d0 _ hmem
          simp [eventDep] at hdep
          exact hd0B dB hdB hdep.symm
        · intro f hmem
          rw [lintDeps_cons_some env d0 _ a hph] at hmem
          have hdep := depPhase_dep env d0 _ hmem
          simp [eventDep] at hdep
          exact hd0B dB hdB hdep.symm
    | none =>
      constructor
      · intro f c hmem
        rw [lintDeps_cons_none env d0 _ hph] at hmem
        rcases List.mem_append.mp hmem with hm | hm
        · have hdep := depPhase_dep env d0 _ hm
          simp [eventDep] at hdep
          exact hd0A hdep.symm
        · exact ihA f c hm
      · intro dB hdB
        refine ⟨?_, ?_⟩
        · intro f c hmem
          rw [lintDeps_cons_none env d0 _ hph] at hmem
          rcases List.mem_append.mp hmem with hm | hm
          · have hdep := depPhase_dep env d0 _ hm
            simp [eventDep] at hdep
            exact hd0B dB hdB hdep.symm
          · exact (ihB dB hdB).1 f c hm
        · intro f hmem
          rw [lintDeps_cons_none env d0 _ hph] at hmem
          rcases List.mem_append.mp hmem with hm | hm
          · have hdep := depPhase_dep env d0 _ hm
            simp [eventDep] at hdep
            exact hd0B dB hdB hdep.symm
          · exact (ihB dB hdB).2 f hm

/-- When `lint` succeeds, the top-level steps all passed, the dependency
loop finished cleanly, and the trace is the top-level events followed by
the loop's events. -/
theorem lint_ok_struct (env : LintEnv) (hok : (lint env).2 = .ok) :
    (lintDeps env (env.retrieve_deps ++ [env.main_sym])).2 = none ∧
    (lint env).1 = (if env.top_build_exists then [Event.removeTopBuild] else [])
      ++ [Event.createPackage, Event.retrieverNew, Event.retrieve]
      ++ (lintDeps env (env.retrieve_deps ++ [env.main_sym])).1 := by
  by_cases h1 : env.top_build_exists = true ∧ env.remove_top_build_ok = false
  · simp [lint, h1] at hok
  by_cases h2 : env.package_create_ok = false
  · simp [lint, h1, h2] at hok
  by_cases h3 : env.retriever_new_ok = false
  · simp [lint, h1, h2, h3] at hok
  by_cases h4 : env.retrieve_ok = false
  · simp [lint, h1, h2, h3, h4] at hok
  cases hrun : (lintDeps env (env.retrieve_deps ++ [env.main_sym])).2 with
  | some a =>
    cases a with
    | aerr e => simp [lint, h1, h2, h3, h4, hrun] at hok
    | apanic m => simp [lint, h1, h2, h3, h4, hrun] at hok
  | none =>
    refine ⟨rfl, ?_⟩
    simp [lint, h1, h2, h3, h4]

/-- Any event of a `lint` trace is a top-level event or comes from the
dependency loop. -/
theorem lint_event_cases (env : LintEnv) (e : Event) (he : e ∈ (lint env).1) :
    e = Event.removeTopBuild ∨ e = Event.createPackage ∨ e = Event.retrieverNew
      ∨ e = Event.retrieve
      ∨ e ∈ (lintDeps env (env.retrieve_deps ++ [env.main_sym])).1 := by
  by_cases h1 : env.top_build_exists = true ∧ env.remove_top_build_ok = false
  · obtain ⟨ht, hr⟩ := h1
    simp [lint, ht, hr] at he
    tauto
  by_cases h2 : env.package_create_ok = false
  · cases htop : env.top_build_exists with
    | false =>
      simp [lint, h1, h2, htop] at he
      tauto
    | true =>
      have h1' : ¬env.remove_top_build_ok = false := fun hr => h1 ⟨htop, hr⟩
      simp [lint, h1', h2, htop] at he
      tauto
  by_cases h3 : env.retriever_new_ok = false
  · cases htop : env.top_build_exists with
    | false =>
      simp [lint, h1, h2, h3, htop] at he
      tauto
    | true =>
      have h1' : ¬env.remove_top_build_ok = false := fun hr => h1 ⟨htop, hr⟩
      simp [lint, h1', h2, h3, htop] at he
      tauto
  by_cases h4 : env.retrieve_ok = false
  · cases htop : env.top_build_exists with
    | false =>
      simp [lint, h1, h2, h3, h4, htop] at he
      tauto
    | true =>
      have h1' : ¬env.remove_top_build_ok = false := fun hr => h1 ⟨htop, hr⟩
      simp [lint, h1', h2, h3, h4, htop] at he
      tauto
  cases htop : env.top_build_exists with
  | false =>
    simp [lint, h1, h2, h3, h4, htop] at he
    tauto
  | true =>
    have h1' : ¬env.remove_top_build_ok = false := fun hr => h1 ⟨htop, hr⟩
    simp [lint, h1', h2, h3, h4, htop] at he
    tauto

theorem compileFilesPhase_count_zero (env : LintEnv) (d : DepSym)
    (fs : List FileId) (a : Event) (ha : isCompileKind a = false) :
    (compileFilesPhase env d fs).1.count a = 0 := by
  rw [List.count_eq_zero]
  intro hmem
  have hk := (compileFilesPhase_shape env d fs a hmem).2
  rw [ha] at hk
  cases hk

/-- On the success path, the reformat loop reads and writes each listed
file exactly as often as it is listed, and the written contents are
always the normalization of the file's text. -/
theorem formatFilesPhase_count (env : LintEnv) (d : DepSym) :
    ∀ fs : List FileId, (formatFilesPhase env d fs).2 = none → ∀ f : FileId,
      (formatFilesPhase env d fs).1.count (Event.readFile d f) = fs.count f ∧
      (formatFilesPhase env d fs).1.count
        (Event.writeFile d f (normalize_code (env.content d f))) = fs.count f := by
  intro fs
  induction fs with
  | nil =>
    intro _ f
    simp [formatFilesPhase]
  | cons f' fs ih =>
    intro h f
    by_cases h1 : env.read_ok d f' = false
    · simp [formatFilesPhase, h1] at h
    simp only [Bool.not_eq_false] at h1
    by_cases h2 : env.write_ok d f' = false
    · simp [formatFilesPhase, h1, h2] at h
    simp only [Bool.not_eq_false] at h2
    have hrest : (formatFilesPhase env d fs).2 = none := by
      simpa [formatFilesPhase, h1, h2] using h
    obtain ⟨ihr, ihw⟩ := ih hrest f
    have hev : (formatFilesPhase env d (f' :: fs)).1
        = Event.readFile d f'
          :: Event.writeFile d f' (normalize_code (env.content d f'))
          :: (formatFilesPhase env d fs).1 := by
      simp [formatFilesPhase, h1, h2]
    rw [hev]
    by_cases hf : f' = f
    · subst hf
      constructor
      · simp [List.count_cons, ihr]
      · simp [List.count_cons, ihw]
    · constructor
      · simp [List.count_cons, ihr, hf]
      · simp [List.count_cons, ihw, hf]

/-- On the success path, a dependency phase reads and writes each listed
file exactly as often as it is listed. -/
theorem depPhase_count (env : LintEnv) (d : DepSym)
    (h : (depPhase env d).2 = none) (f : FileId) :
    (depPhase env d).1.count (Event.readFile d f) = (env.files d).count f ∧
    (depPhase env d).1.count
        (Event.writeFile d f (normalize_code (env.content d f)))
      = (env.files d).count f := by
  obtain ⟨hc, hf2, hev⟩ := depPhase_none_struct env d h
  obtain ⟨ihr, ihw⟩ := formatFilesPhase_count env d (env.files d) hf2 f
  rw [hev]
  have hcz1 : (compileFilesPhase env d (env.files d)).1.count (Event.readFile d f)
      = 0 := compileFilesPhase_count_zero env d _ _ rfl
  have hcz2 : (compileFilesPhase env d (env.files d)).1.count
      (Event.writeFile d f (normalize_code (env.content d f))) = 0 :=
    compileFilesPhase_count_zero env d _ _ rfl
  constructor
  · simp [List.count_append, List.count_cons, hcz1, ihr]
  · simp [List.count_append, List.count_cons, hcz2, ihw]

theorem depPhase_count_zero_of_ne (env : LintEnv) (dOther d : DepSym)
    (hne : dOther ≠ d) (a : Event) (ha : eventDep a = some d) :
    (depPhase env dOther).1.count a = 0 := by
  rw [List.count_eq_zero]
  intro hmem
  have hdep := depPhase_dep env dOther a hmem
  rw [ha] at hdep
  exact hne (Option.some.inj hdep).symm

theorem lintDeps_count_zero (env : LintEnv) (a : Event) :
    ∀ ds : List DepSym, (lintDeps env ds).2 = none →
      (∀ dOther ∈ ds, (depPhase env dOther).1.count a = 0) →
      (lintDeps env ds).1.count a = 0 := by
  intro ds
  induction ds with
  | nil =>
    intro _ _
    simp [lintDeps]
  | cons d0 ds ih =>
    intro h hz
    cases hph : (depPhase env d0).2 with
    | some x =>
      rw [lintDeps_cons_some env d0 ds x hph] at h
      simp at h
    | none =>
      have h' : (lintDeps env ds).2 = none := by
        rw [lintDeps_cons_none env d0 ds hph] at h
        exact h
      rw [lintDeps_cons_none env d0 ds hph]
      show ((depPhase env d0).1 ++ (lintDeps env ds).1).count a = 0
      rw [List.count_append, hz d0 (List.mem_cons_self d0 ds),
        ih h' (fun x hx => hz x (List.mem_cons_of_mem d0 hx))]

theorem lintDeps_count_single (env : LintEnv) (a : Event) (d : DepSym) :
    ∀ ds : List DepSym, (lintDeps env ds).2 = none → ds.Nodup → d ∈ ds →
      (∀ dOther ∈ ds, dOther ≠ d → (depPhase env dOther).1.count a = 0) →
      (lintDeps env ds).1.count a = (depPhase env d).1.count a := by
  intro ds
  induction ds with
  | nil =>
    intro _ _ hd
    cases hd
  | cons d0 ds ih =>
    intro h hnd hd hz
    cases hph : (depPhase env d0).2 with
    | some x =>
      rw [lintDeps_cons_some env d0 ds x hph] at h
      simp at h
    | none =>
      have h' : (lintDeps env ds).2 = none := by
        rw [lintDeps_cons_none env d0 ds hph] at h
        exact h
      rw [lintDeps_cons_none env d0 ds hph]
      show ((depPhase env d0).1 ++ (lintDeps env ds).1).count a
        = (depPhase env d).1.count a
      rw [List.count_append]
      rcases List.mem_cons.mp hd with rfl | hd'
      · have hzrest : (lintDeps env ds).1.count a = 0 := by
          refine lintDeps_count_zero env a ds h' ?_
          intro x hx
          refine hz x (List.mem_cons_of_mem d hx) ?_
          intro hEq
          subst hEq
          exact (List.nodup_cons.mp hnd).1 hx
        rw [hzrest]
        omega
      · have hz0 : (depPhase env d0).1.count a = 0 := by
          refine hz d0 (List.mem_cons_self d0 ds) ?_
          intro hEq
          subst hEq
          exact (List.nodup_cons.mp hnd).1 hd'
        rw [hz0, ih h' (List.nodup_cons.mp hnd).2 hd'
          (fun x hx => hz x (List.mem_cons_of_mem d0 hx))]
        omega

/-- C10 (confirmed).  `Linter::new` is infallible: for every choice of the
four arguments it returns `Ok` with a `Linter` holding exactly those
values, and no code path returns an error. -/
theorem linter_new_infallible (p e pp hp : String) :
    Linter.new p e pp hp
      = Except.ok { package_path := pp, home_path := hp,
                    program_id := p, endpoint := e } := rfl

/-- C3 counterexample.  When compilation of a file fails, `lint` does not
surface the failure as a structured value in its `Result`: it aborts via
the panic of `compiler.compile().expect("Failed to compile")`. -/
theorem compile_error_panics_not_result :
    (lint envCompileFail).2 = LintOutcome.panicked "Failed to compile" ∧
    (lint envCompileFail).2 ≠ LintOutcome.err UtilError.failed_to_retrieve_dependencies ∧
    (lint envCompileFail).2 ≠ LintOutcome.err UtilError.prepare_local_error ∧
    (lint envCompileFail).2 ≠ LintOutcome.err UtilError.snarkvm_error_building_program_id :=
  ⟨by decide, by decide, by decide, by decide⟩

/-- C3 (corrected).  Dependency-resolution errors (retriever construction,
retrieval, local staging) and package-identifier construction errors are
surfaced as distinct structured `UtilError` values in the `Result`, and no
failing call is retried (each appears at most once in the trace); but
compilation errors (and filesystem errors) abort via panic instead of the
`Result`. -/
theorem lint_error_taxonomy : ∀ rnew rok prep pid comp : Bool,
    (lint (envKnobs rnew rok prep pid comp)).2 =
      (if rnew = false then LintOutcome.err .failed_to_retrieve_dependencies
       else if rok = false then LintOutcome.err .failed_to_retrieve_dependencies
       else if prep = false then LintOutcome.err .prepare_local_error
       else if pid = false then LintOutcome.err .snarkvm_error_building_program_id
       else if comp = false then LintOutcome.panicked "Failed to compile"
       else LintOutcome.ok) ∧
    (lint (envKnobs rnew rok prep pid comp)).1.count Event.retrieverNew ≤ 1 ∧
    (lint (envKnobs rnew rok prep pid comp)).1.count Event.retrieve ≤ 1 ∧
    (lint (envKnobs rnew rok prep pid comp)).1.count (Event.prepareLocal "main") ≤ 1 ∧
    (lint (envKnobs rnew rok prep pid comp)).1.count (Event.compile "main" 0) ≤ 1 := by
  decide

/-- C4 (confirmed).  If a source file of dependency `dA` fails to compile,
the pass never rewrites a source file of `dA` or of any dependency after
it, and never compiles a file of a dependency after it. -/
theorem lint_fail_fast_on_compile_error (env : LintEnv)
    (pre post : List DepSym) (dA : DepSym)
    (hsplit : env.retrieve_deps ++ [env.main_sym] = pre ++ dA :: post)
    (hnd : (env.retrieve_deps ++ [env.main_sym]).Nodup)
    (f0 : FileId) (hf0 : f0 ∈ env.files dA)
    (hfail : env.compile_ok dA f0 = false) :
    (∀ f c, Event.writeFile dA f c ∉ (lint env).1) ∧
    ∀ dB ∈ post, (∀ f c, Event.writeFile dB f c ∉ (lint env).1) ∧
      ∀ f, Event.compile dB f ∉ (lint env).1 := by
  rw [hsplit] at hnd
  obtain ⟨hA, hB⟩ := lintDeps_fail_fast env dA f0 hf0 hfail pre post hnd
  rw [← hsplit] at hA hB
  constructor
  · intro f c hm
    rcases lint_event_cases env _ hm with h | h | h | h | h
    · cases h
    · cases h
    · cases h
    · cases h
    · exact hA f c h
  · intro dB hdB
    refine ⟨?_, ?_⟩
    · intro f c hm
      rcases lint_event_cases env _ hm with h | h | h | h | h
      · cases h
      · cases h
      · cases h
      · cases h
      · exact (hB dB hdB).1 f c h
    · intro f hm
      rcases lint_event_cases env _ hm with h | h | h | h | h
      · cases h
      · cases h
      · cases h
      · cases h
      · exact (hB dB hdB).2 f h

/-- C4 witness: with dependencies `["A", "B"]` and `"A"`'s file failing
compilation, no file of `"A"` or `"B"` is rewritten and no file of `"B"`
is compiled. -/
theorem lint_fail_fast_on_compile_error_witness :
    Event.writeFile "A" 0 "" ∉ (lint envTwoDeps).1 ∧
    Event.writeFile "B" 0 "" ∉ (lint envTwoDeps).1 ∧
    Event.compile "B" 0 ∉ (lint envTwoDeps).1 := by
  have h := lint_fail_fast_on_compile_error envTwoDeps [] ["B"] "A" rfl
    (by decide) 0 (by decide) (by decide)
  exact ⟨h.1 0 "", (h.2 "B" (by decide)).1 0 "", (h.2 "B" (by decide)).2 0⟩

/-- The build scratch directory of `d` exists at the end of a trace: it
was created and never removed. -/
def buildScratchExists (tr : List Event) (d : DepSym) : Prop :=
  Event.createBuild d ∈ tr ∧ Event.removeBuildDir d ∉ tr

/-- The outputs scratch directory of `d` exists at the end of a trace. -/
def outputsScratchExists (tr : List Event) (d : DepSym) : Prop :=
  Event.createOutputs d ∈ tr ∧ Event.removeOutputsDir d ∉ tr

/-- C5 counterexample.  When compilation fails partway, the pass panics
before `fs::remove_dir_all` runs, so both scratch directories are still on
disk, contradicting the claim that they are removed regardless of compile
failure. -/
theorem scratch_dirs_survive_compile_failure :
    buildScratchExists (lint envCompileFail).1 "main" ∧
    outputsScratchExists (lint envCompileFail).1 "main" ∧
    (lint envCompileFail).2 = LintOutcome.panicked "Failed to compile" :=
  ⟨⟨by decide, by decide⟩, ⟨by decide, by decide⟩, by decide⟩

/-- C5 (corrected).  On the success path the claim holds: when `lint`
returns `Ok`, every dependency's build and outputs scratch directories
were removed (the removal events are in the trace, after which nothing
recreates them). -/
theorem scratch_dirs_removed_on_success (env : LintEnv)
    (hok : (lint env).2 = .ok) :
    ∀ d ∈ env.retrieve_deps ++ [env.main_sym],
      Event.removeBuildDir d ∈ (lint env).1 ∧
      Event.removeOutputsDir d ∈ (lint env).1 := by
  obtain ⟨hnone, htr⟩ := lint_ok_struct env hok
  intro d hd
  obtain ⟨hdnone, hmem⟩ := lintDeps_none_mem env _ hnone d hd
  obtain ⟨hc, hf, hevents⟩ := depPhase_none_struct env d hdnone
  constructor
  · rw [htr]
    refine List.mem_append_right _ (hmem _ ?_)
    rw [hevents]
    simp
  · rw [htr]
    refine List.mem_append_right _ (hmem _ ?_)
    rw [hevents]
    simp

/-- C5 witness: in the all-success environment the scratch directories of
the main package are removed. -/
theorem scratch_dirs_removed_on_success_witness :
    Event.removeBuildDir "main" ∈ (lint envAllOk).1 ∧
    Event.removeOutputsDir "main" ∈ (lint envAllOk).1 :=
  scratch_dirs_removed_on_success envAllOk (by decide) "main" (by decide)

/-- C8 (confirmed).  On a successful pass, the reformat loop issues
exactly one read and one write for every enumerated source file of every
dependency, and the written contents are always `normalize_code` of the
file's text — there is no diff or no-op short-circuit, so this holds even
when the written bytes equal the existing bytes. -/
theorem reformat_exactly_one_read_one_write (env : LintEnv)
    (hok : (lint env).2 = .ok)
    (hnd : (env.retrieve_deps ++ [env.main_sym]).Nodup)
    (d : DepSym) (hd : d ∈ env.retrieve_deps ++ [env.main_sym])
    (f : FileId) (hf : f ∈ env.files d) (hfnd : (env.files d).Nodup) :
    (lint env).1.count (Event.readFile d f) = 1 ∧
    (lint env).1.count
      (Event.writeFile d f (normalize_code (env.content d f))) = 1 := by
  obtain ⟨hnone, htr⟩ := lint_ok_struct env hok
  have hdnone : (depPhase env d).2 = none :=
    (lintDeps_none_mem env _ hnone d hd).1
  have hzr : ∀ dOther ∈ env.retrieve_deps ++ [env.main_sym], dOther ≠ d →
      (depPhase env dOther).1.count (Event.readFile d f) = 0 :=
    fun dOther _ hne => depPhase_count_zero_of_ne env dOther d hne _ rfl
  have hzw : ∀ dOther ∈ env.retrieve_deps ++ [env.main_sym], dOther ≠ d →
      (depPhase env dOther).1.count
        (Event.writeFile d f (normalize_code (env.content d f))) = 0 :=
    fun dOther _ hne => depPhase_count_zero_of_ne env dOther d hne _ rfl
  have hr := lintDeps_count_single env (Event.readFile d f) d _ hnone hnd hd hzr
  have hw := lintDeps_count_single env
    (Event.writeFile d f (normalize_code (env.content d f))) d _ hnone hnd hd hzw
  obtain ⟨hdr, hdw⟩ := depPhase_count env d hdnone f
  have hone : (env.files d).count f = 1 := List.count_eq_one_of_mem hfnd hf
  rw [htr]
  cases htop : env.top_build_exists with
  | false =>
    constructor
    · simp [List.count_append, List.count_cons, hr, hdr, hone]
    · simp [List.count_append, List.count_cons, hw, hdw, hone]
  | true =>
    constructor
    · simp [List.count_append, List.count_cons, hr, hdr, hone]
    · simp [List.count_append, List.count_cons, hw, hdw, hone]

/-- C8 witness: in the all-success environment, the one file of
dependency `"dep"` is read once and written once with its normalized
contents. -/
theorem reformat_exactly_one_read_one_write_witness :
    (lint envAllOk).1.count (Event.readFile "dep" 0) = 1 ∧
    (lint envAllOk).1.count
      (Event.writeFile "dep" 0 (normalize_code (envAllOk.content "dep" 0))) = 1 :=
  reformat_exactly_one_read_one_write envAllOk (by decide) (by decide)
    "dep" (by decide) 0 (by decide) (by decide)

/-! Machinery for the idempotence analysis (C1).  `normalize_code` is not
idempotent in general; it is idempotent on inputs with no `)`, no `/`, and
brace nesting depth at most one.  `ok1 l i` decides membership in that
class, scanning from current depth `i`. -/

/-- Inputs on which re-normalization is stable: no `)`, no `/`, and every
`{` opens from depth 0 (so nesting depth stays at most 1). -/
def ok1 : List Char → Nat → Bool
  | [], _ => true
  | c :: t, i =>
    if c = '{' then decide (i = 0) && ok1 t 1
    else if c = '}' then ok1 t (i - 1)
    else if c = ')' then false
    else if c = '/' then false
    else ok1 t i

/-- The scan is compositional over appends whose first part contains no
`/` (a `/` could otherwise pair with the head of the second part). -/
theorem normalizeLoop_append (xs : List Char) :
    ∀ (ys : List Char) (st : NormState), (∀ c ∈ xs, c ≠ '/') →
      normalizeLoop (xs ++ ys) st = normalizeLoop ys (normalizeLoop xs st) := by
  induction xs with
  | nil =>
    intro ys st _
    rw [List.nil_append, normalizeLoop_nil]
  | cons c xs' ih =>
    intro ys st hs
    have hc : c ≠ '/' := hs c (List.mem_cons_self c xs')
    rw [List.cons_append, normalizeLoop_cons_ne _ _ _ hc,
      normalizeLoop_cons_ne _ _ _ hc,
      ih ys (normStep1 st c) (fun a ha => hs a (List.mem_cons_of_mem c ha))]

/-- A run of spaces is wholly skipped when the output already ends in a
space. -/
theorem normalizeLoop_replicate_space (n : Nat) :
    ∀ st : NormState, st.result.getLast? = some ' ' →
      normalizeLoop (List.replicate n ' ') st = st := by
  induction n with
  | zero =>
    intro st _
    rw [List.replicate, normalizeLoop_nil]
  | succ m ih =>
    intro st h
    rw [List.replicate_succ, normalizeLoop_cons_ne _ _ _ (by decide),
      normStep1_space, if_pos h]
    exact ih st h

theorem getLast?_append_replicate_succ (xs : List Char) (n : Nat) :
    (xs ++ List.replicate (n + 1) ' ').getLast? = some ' ' := by
  rw [List.replicate_succ', ← List.append_assoc, List.getLast?_concat]

/-- Processing the chunk a `{` emits (from depth 0) reproduces the same
state transition as the `{` itself. -/
theorem chunk_open (r : List Char) (b : Bool) :
    normalizeLoop ('{' :: '\n' :: List.replicate 4 ' ') ⟨r, 0, b, false⟩
      = ⟨r ++ '{' :: '\n' :: List.replicate 4 ' ', 1, true, false⟩ := by
  rw [normalizeLoop_cons_ne _ _ _ (by decide), normStep1_open]
  rw [normalizeLoop_cons_ne _ _ _ (by decide)]
  rw [normStep1_newline_nocomment _ rfl]
  have h4 : (4 : Nat) * (0 + 1) = 3 + 1 := by norm_num
  rw [h4]
  refine normalizeLoop_replicate_space 4 _ ?_
  show (r ++ '{' :: '\n' :: List.replicate (3 + 1) ' ').getLast? = some ' '
  have : r ++ '{' :: '\n' :: List.replicate (3 + 1) ' '
      = (r ++ ['{', '\n']) ++ List.replicate (3 + 1) ' ' := by simp
  rw [this, getLast?_append_replicate_succ]

/-- Processing the chunk a depth-1 `}` emits reproduces the same state
transition as the `}` itself. -/
theorem chunk_close (r : List Char) :
    normalizeLoop ['\n', '}', '\n'] ⟨r, 1, true, false⟩
      = ⟨r ++ ['\n', '}', '\n'], 0, false, false⟩ := by
  rw [normalizeLoop_cons_ne _ _ _ (by decide), normStep1_newline_nocomment _ rfl]
  rw [normalizeLoop_cons_ne _ _ _ (by decide), normStep1_close_brace _ rfl]
  rw [show (normalizeLoop ['\n'] _ : NormState) = normStep1 _ '\n' from rfl]
  rw [normStep1_newline_nocomment _ rfl]
  simp [List.replicate]

/-- Processing the chunk a `;` emits reproduces the same state transition
as the `;` itself. -/
theorem chunk_semi (r : List Char) (i : Nat) (b : Bool) :
    normalizeLoop (';' :: '\n' :: List.replicate (4 * i) ' ') ⟨r, i, b, false⟩
      = ⟨r ++ ';' :: '\n' :: List.replicate (4 * i) ' ', i, b, false⟩ := by
  rw [normalizeLoop_cons_ne _ _ _ (by decide), normStep1_semi]
  rw [normalizeLoop_cons_ne _ _ _ (by decide), normStep1_newline_nocomment _ rfl]
  cases hi : 4 * i with
  | zero =>
    rw [List.replicate, normalizeLoop_nil]
  | succ m =>
    refine normalizeLoop_replicate_space (m + 1) _ ?_
    show (r ++ ';' :: '\n' :: List.replicate (m + 1) ' ').getLast? = some ' '
    have : r ++ ';' :: '\n' :: List.replicate (m + 1) ' '
        = (r ++ [';', '\n']) ++ List.replicate (m + 1) ' ' := by simp
    rw [this, getLast?_append_replicate_succ]

/-- Processing the chunk a `:` emits reproduces the same state transition
as the `:` itself. -/
theorem chunk_colon (r : List Char) (i : Nat) (b : Bool) :
    normalizeLoop [':', ' '] ⟨r, i, b, false⟩ = ⟨r ++ [':', ' '], i, b, false⟩ := by
  rw [normalizeLoop_cons_ne _ _ _ (by decide), normStep1_colon]
  rw [show (normalizeLoop [' '] _ : NormState) = normStep1 _ ' ' from rfl]
  rw [normStep1_space]
  refine if_pos ?_
  have hsplit2 : r ++ [':', ' '] = (r ++ [':']) ++ [' '] := by simp
  rw [hsplit2, List.getLast?_concat]

/-- Processing the chunk a `(` emits reproduces the same state transition
as the `(` itself. -/
theorem chunk_lparen (r : List Char) (i : Nat) (b : Bool) :
    normalizeLoop ['(', ' '] ⟨r, i, b, false⟩ = ⟨r ++ ['(', ' '], i, b, false⟩ := by
  rw [normalizeLoop_cons_ne _ _ _ (by decide), normStep1_lparen]
  rw [show (normalizeLoop [' '] _ : NormState) = normStep1 _ ' ' from rfl]
  rw [normStep1_space]
  refine if_pos ?_
  have hsplit2 : r ++ ['(', ' '] = (r ++ ['(']) ++ [' '] := by simp
  rw [hsplit2, List.getLast?_concat]

/-- On the `ok1` class, the text emitted for arbitrary input, re-scanned
from the same starting state, reproduces the same final state: the scan's
emission is a fixed point of the scan. -/
theorem normalizeLoop_canonical_fixpoint (s : List Char) :
    ∀ (r : List Char) (i : Nat), ok1 s i = true → i ≤ 1 →
      ∃ E, (normalizeLoop s ⟨r, i, decide (0 < i), false⟩).result = r ++ E
        ∧ (∀ c ∈ E, c ≠ '/')
        ∧ normalizeLoop E ⟨r, i, decide (0 < i), false⟩
            = normalizeLoop s ⟨r, i, decide (0 < i), false⟩ := by
  induction s with
  | nil =>
    intro r i _ _
    exact ⟨[], by simp [normalizeLoop_nil], by simp, by simp [normalizeLoop_nil]⟩
  | cons c t ih =>
    intro r i hok hle
    have key : ∀ (e : List Char) (i' : Nat), (∀ a ∈ e, a ≠ '/') →
        ok1 t i' = true → i' ≤ 1 → c ≠ '/' →
        normStep1 ⟨r, i, decide (0 < i), false⟩ c
          = ⟨r ++ e, i', decide (0 < i'), false⟩ →
        normalizeLoop e ⟨r, i, decide (0 < i), false⟩
          = ⟨r ++ e, i', decide (0 < i'), false⟩ →
        ∃ E, (normalizeLoop (c :: t) ⟨r, i, decide (0 < i), false⟩).result = r ++ E
          ∧ (∀ a ∈ E, a ≠ '/')
          ∧ normalizeLoop E ⟨r, i, decide (0 < i), false⟩
              = normalizeLoop (c :: t) ⟨r, i, decide (0 < i), false⟩ := by
      intro e i' he hok' hle' hc hstep hchunk
      obtain ⟨E, hres, hE, hfix⟩ := ih (r ++ e) i' hok' hle'
      refine ⟨e ++ E, ?_, ?_, ?_⟩
      · rw [normalizeLoop_cons_ne _ _ _ hc, hstep, hres, List.append_assoc]
      · intro a ha
        rcases List.mem_append.mp ha with h1 | h1
        · exact he a h1
        · exact hE a h1
      · rw [normalizeLoop_append e E _ he, hchunk, hfix,
          normalizeLoop_cons_ne _ _ _ hc, hstep]
    by_cases h1 : c = '{'
    · subst h1
      rw [ok1] at hok
      rw [if_pos rfl] at hok
      rw [Bool.and_eq_true, decide_eq_true_eq] at hok
      obtain ⟨hi0, hok'⟩ := hok
      subst hi0
      refine key ('{' :: '\n' :: List.replicate 4 ' ') 1 ?_ hok' (by omega)
        (by decide) ?_ ?_
      · intro a ha
        simp only [List.mem_cons] at ha
        rcases ha with rfl | rfl | ha
        · decide
        · decide
        · rw [List.eq_of_mem_replicate ha]
          decide
      · rw [normStep1_open]
        norm_num
      · exact chunk_open r _
    by_cases h2 : c = '}'
    · subst h2
      rw [ok1] at hok
      rw [if_neg (by decide), if_pos rfl] at hok
      cases i with
      | zero =>
        refine key [] 0 (by simp) (by simpa using hok) (by omega) (by decide) ?_ ?_
        · rw [normStep1_close_nobrace _ rfl]
          simp
        · rw [normalizeLoop_nil]
          simp
      | succ n =>
        have hn : n = 0 := by omega
        subst hn
        refine key ['\n', '}', '\n'] 0 (by decide) (by simpa using hok) (by omega)
          (by decide) ?_ ?_
        · rw [normStep1_close_brace _ rfl]
          simp
        · exact chunk_close r
    by_cases h3 : c = ';'
    · subst h3
      rw [ok1] at hok
      rw [if_neg (by decide), if_neg (by decide), if_neg (by decide),
        if_neg (by decide)] at hok
      refine key (';' :: '\n' :: List.replicate (4 * i) ' ') i ?_ hok hle
        (by decide) ?_ ?_
      · intro a ha
        simp only [List.mem_cons] at ha
        rcases ha with rfl | rfl | ha
        · decide
        · decide
        · rw [List.eq_of_mem_replicate ha]
          decide
      · rw [normStep1_semi]
      · exact chunk_semi r i _
    by_cases h4 : c = ':'
    · subst h4
      rw [ok1] at hok
      rw [if_neg (by decide), if_neg (by decide), if_neg (by decide),
        if_neg (by decide)] at hok
      refine key [':', ' '] i (by decide) hok hle (by decide) ?_ ?_
      · rw [normStep1_colon]
      · exact chunk_colon r i _
    by_cases h5 : c = '('
    · subst h5
      rw [ok1] at hok
      rw [if_neg (by decide), if_neg (by decide), if_neg (by decide),
        if_neg (by decide)] at hok
      refine key ['(', ' '] i (by decide) hok hle (by decide) ?_ ?_
      · rw [normStep1_lparen]
      · exact chunk_lparen r i _
    by_cases h6 : c = ')'
    · subst h6
      rw [ok1] at hok
      rw [if_neg (by decide), if_neg (by decide), if_pos rfl] at hok
      exact absurd hok (by decide)
    by_cases h7 : c = '/'
    · subst h7
      rw [ok1] at hok
      rw [if_neg (by decide), if_neg (by decide), if_neg (by decide),
        if_pos rfl] at hok
      exact absurd hok (by decide)
    by_cases h8 : c = '\n'
    · subst h8
      rw [ok1] at hok
      rw [if_neg (by decide), if_neg (by decide), if_neg (by decide),
        if_neg (by decide)] at hok
      refine key [] i (by simp) hok hle (by decide) ?_ ?_
      · rw [normStep1_newline_nocomment _ rfl]
        simp
      · rw [normalizeLoop_nil]
        simp
    by_cases h9 : c = ' '
    · subst h9
      rw [ok1] at hok
      rw [if_neg (by decide), if_neg (by decide), if_neg (by decide),
        if_neg (by decide)] at hok
      by_cases hsp : r.getLast? = some ' '
      · refine key [] i (by simp) hok hle (by decide) ?_ ?_
        · rw [normStep1_space, if_pos (by simpa using hsp)]
          simp
        · rw [normalizeLoop_nil]
          simp
      · refine key [' '] i (by decide) hok hle (by decide) ?_ ?_
        · rw [normStep1_space, if_neg (by simpa using hsp)]
        · rw [show (normalizeLoop [' '] _ : NormState) = normStep1 _ ' ' from rfl]
          rw [normStep1_space, if_neg (by simpa using hsp)]
    · rw [ok1] at hok
      rw [if_neg h1, if_neg h2, if_neg h6, if_neg h7] at hok
      refine key [c] i ?_ hok hle h7 ?_ ?_
      · intro a ha
        rw [List.mem_singleton] at ha
        subst ha
        exact h7
      · rw [normStep1_default _ c h1 h2 h3 h4 h5 h6 h7 h8 h9]
      · rw [show (normalizeLoop [c] _ : NormState) = normStep1 _ c from rfl]
        rw [normStep1_default _ c h1 h2 h3 h4 h5 h6 h7 h8 h9]

/-- Every whitespace character (in the sense of `rustIsWhitespace`) emits
only whitespace: scanning a whitespace-only list appends a
whitespace-only suffix to the output. -/
theorem ws_emission (w : List Char) :
    ∀ st : NormState, (∀ c ∈ w, rustIsWhitespace c = true) →
      ∃ u, (normalizeLoop w st).result = st.result ++ u ∧
        (∀ c ∈ u, rustIsWhitespace c = true) := by
  induction w with
  | nil =>
    intro st _
    exact ⟨[], by simp [normalizeLoop_nil], by simp⟩
  | cons c t ih =>
    intro st hw
    have hc : rustIsWhitespace c = true := hw c (List.mem_cons_self c t)
    have hcslash : c ≠ '/' := by rintro rfl; exact absurd hc (by decide)
    rw [normalizeLoop_cons_ne _ _ _ hcslash]
    have hstep : ∃ u0, (normStep1 st c).result = st.result ++ u0 ∧
        (∀ a ∈ u0, rustIsWhitespace a = true) := by
      by_cases h9 : c = ' '
      · subst h9
        rw [normStep1_space]
        by_cases hs : st.result.getLast? = some ' '
        · rw [if_pos hs]
          exact ⟨[], by simp, by simp⟩
        · rw [if_neg hs]
          refine ⟨[' '], rfl, ?_⟩
          intro a ha
          rw [List.mem_singleton] at ha
          subst ha
          decide
      by_cases h8 : c = '\n'
      · subst h8
        cases hcm : st.inside_comment with
        | true =>
          rw [normStep1_newline_comment _ hcm]
          refine ⟨'\n' :: List.replicate (4 * st.indent_level) ' ', rfl, ?_⟩
          intro a ha
          simp only [List.mem_cons] at ha
          rcases ha with rfl | ha
          · decide
          · rw [List.eq_of_mem_replicate ha]
            decide
        | false =>
          rw [normStep1_newline_nocomment _ hcm]
          exact ⟨[], by simp, by simp⟩
      have h1 : c ≠ '{' := by rintro rfl; exact absurd hc (by decide)
      have h2 : c ≠ '}' := by rintro rfl; exact absurd hc (by decide)
      have h3 : c ≠ ';' := by rintro rfl; exact absurd hc (by decide)
      have h4 : c ≠ ':' := by rintro rfl; exact absurd hc (by decide)
      have h5 : c ≠ '(' := by rintro rfl; exact absurd hc (by decide)
      have h6 : c ≠ ')' := by rintro rfl; exact absurd hc (by decide)
      rw [normStep1_default st c h1 h2 h3 h4 h5 h6 hcslash h8 h9]
      refine ⟨[c], rfl, ?_⟩
      intro a ha
      rw [List.mem_singleton] at ha
      subst ha
      exact hc
    obtain ⟨u0, hru0, hu0⟩ := hstep
    obtain ⟨u1, hru1, hu1⟩ :=
      ih (normStep1 st c) (fun a ha => hw a (List.mem_cons_of_mem c ha))
    refine ⟨u0 ++ u1, ?_, ?_⟩
    · rw [hru1, hru0, List.append_assoc]
    · intro a ha
      rcases List.mem_append.mp ha with h | h
      · exact hu0 a h
      · exact hu1 a h

theorem dropWhile_append_of_forall (p : Char → Bool) (l1 l2 : List Char)
    (h : ∀ a ∈ l1, p a = true) :
    List.dropWhile p (l1 ++ l2) = List.dropWhile p l2 := by
  induction l1 with
  | nil => rw [List.nil_append]
  | cons a t ih =>
    rw [List.cons_append, List.dropWhile_cons, if_pos (h a (List.mem_cons_self a t))]
    exact ih (fun b hb => h b (List.mem_cons_of_mem a hb))

/-- Trailing whitespace does not change the trimmed output. -/
theorem rustTrimEnd_append_ws (x u : List Char)
    (h : ∀ c ∈ u, rustIsWhitespace c = true) :
    rustTrimEnd (x ++ u) = rustTrimEnd x := by
  unfold rustTrimEnd
  rw [List.reverse_append,
    dropWhile_append_of_forall _ _ _ (fun a ha => h a (List.mem_reverse.mp ha))]

theorem dropWhile_dropWhile (p : Char → Bool) (l : List Char) :
    List.dropWhile p (List.dropWhile p l) = List.dropWhile p l := by
  induction l with
  | nil => simp
  | cons a t ih =>
    rw [List.dropWhile_cons]
    by_cases hp : p a = true
    · rw [if_pos hp]
      exact ih
    · rw [if_neg hp, List.dropWhile_cons, if_neg hp]

/-- Every list splits into its trimmed prefix and a whitespace tail. -/
theorem rustTrimEnd_decomp (x : List Char) :
    ∃ w, x = rustTrimEnd x ++ w ∧ ∀ c ∈ w, rustIsWhitespace c = true := by
  refine ⟨(x.reverse.takeWhile rustIsWhitespace).reverse, ?_, ?_⟩
  · conv_lhs => rw [← List.reverse_reverse x,
      ← List.takeWhile_append_dropWhile rustIsWhitespace x.reverse,
      List.reverse_append]
    rfl
  · intro c hc
    rw [List.mem_reverse] at hc
    exact List.mem_takeWhile_imp hc

/-- C1 counterexample.  `normalize` is not idempotent: re-normalizing the
output differs from the output on `")"` (a second space is inserted
before the `)`), on `"{{a}"` (a space leaks in front of the inner closing
brace's newline), and on `"//{x"` (the newline emitted for a `{` inside a
comment is expanded again). -/
theorem normalize_code_not_idempotent :
    normalize_code (normalize_code ")") ≠ normalize_code ")" ∧
    normalize_code (normalize_code (String.mk ['{', '{', 'a', '}']))
      ≠ normalize_code (String.mk ['{', '{', 'a', '}']) ∧
    normalize_code (normalize_code (String.mk ['/', '/', '{', 'x']))
      ≠ normalize_code (String.mk ['/', '/', '{', 'x']) :=
  ⟨by decide, by decide, by decide⟩

/-- C1 (corrected).  On inputs with no `)`, no `/`, and brace nesting
depth at most 1 (the `ok1` class), `normalize` is idempotent. -/
theorem normalize_code_idempotent_restricted (s : String)
    (h : ok1 s.data 0 = true) :
    normalize_code (normalize_code s) = normalize_code s := by
  obtain ⟨E, hres, hE, hfix⟩ :=
    normalizeLoop_canonical_fixpoint s.data [] 0 h (by omega)
  have hinit : (⟨[], 0, decide (0 < 0), false⟩ : NormState) = initNormState := rfl
  rw [hinit] at hres hfix
  rw [List.nil_append] at hres
  obtain ⟨W, hdecomp, hW⟩ := rustTrimEnd_decomp E
  have hOslash : ∀ c ∈ rustTrimEnd E, c ≠ '/' := by
    intro c hc
    refine hE c ?_
    rw [hdecomp]
    exact List.mem_append_left _ hc
  have hsplit : normalizeLoop E initNormState
      = normalizeLoop W (normalizeLoop (rustTrimEnd E) initNormState) := by
    conv_lhs => rw [hdecomp]
    exact normalizeLoop_append _ _ _ hOslash
  obtain ⟨u, hu, huw⟩ :=
    ws_emission W (normalizeLoop (rustTrimEnd E) initNormState) hW
  have hEres : (normalizeLoop (rustTrimEnd E) initNormState).result ++ u = E := by
    calc (normalizeLoop (rustTrimEnd E) initNormState).result ++ u
        = (normalizeLoop W (normalizeLoop (rustTrimEnd E) initNormState)).result :=
          hu.symm
      _ = (normalizeLoop E initNormState).result := by rw [← hsplit]
      _ = (normalizeLoop s.data initNormState).result := by rw [hfix]
      _ = E := hres
  have hnc : normalize_code s = String.mk (rustTrimEnd E) := by
    unfold normalize_code
    rw [hres]
  rw [hnc]
  unfold normalize_code
  show String.mk
      (rustTrimEnd (normalizeLoop (rustTrimEnd E) initNormState).result)
    = String.mk (rustTrimEnd E)
  congr 1
  calc rustTrimEnd ((normalizeLoop (rustTrimEnd E) initNormState).result)
      = rustTrimEnd ((normalizeLoop (rustTrimEnd E) initNormState).result ++ u) :=
        (rustTrimEnd_append_ws _ u huw).symm
    _ = rustTrimEnd E := by rw [hEres]

/-- C1 witness: the restricted idempotence applied to `"{a: b;}"`. -/
theorem normalize_code_idempotent_restricted_witness :
    ok1 (String.mk ['{', 'a', ':', ' ', 'b', ';', '}']).data 0 = true ∧
    normalize_code (normalize_code (String.mk ['{', 'a', ':', ' ', 'b', ';', '}']))
      = normalize_code (String.mk ['{', 'a', ':', ' ', 'b', ';', '}']) :=
  ⟨by decide, normalize_code_idempotent_restricted _ (by decide)⟩

/-- C7 witness: a run of two spaces before `'a'` from the initial state. -/
theorem space_run_single_conditional_space_witness :
    normalizeLoop (List.replicate 2 ' ' ++ ['a']) initNormState =
      normalizeLoop ['a']
        (if initNormState.result.getLast? = some ' ' then initNormState
         else { initNormState with result := initNormState.result ++ [' '] }) :=
  space_run_single_conditional_space 2 (by decide) ['a'] initNormState
